import Mathlib

/-!
Verification development for the MyParser lowering engine
(`src/parser/llvm_ir_generater.rs` plus its collaborators).

The generator is embedded shallowly: machine state (the module under
construction, the basic-block cursor, the scope stack, a register file and an
integer memory) is passed explicitly, and every Rust panic path
(`unimplemented!`, `unreachable!`, `unwrap`, `assert!`, out-of-bounds
indexing) is `none` in the `Option` monad.  Recursion over the syntax tree is
bounded by an explicit fuel parameter; exhausting fuel is also `none`, and
every theorem states its property for a sufficient amount of fuel.

Components whose sources are not part of the repository snapshot (the
`SymbolManager`, the `SyntaxType`/`SyntaxTree` node arena, and the LLVM
backend) are modelled from the specification, as marked on each definition.
-/

namespace MyParser

/-! ## Tokens (`src/token.rs`) -/

/-- Keywords, from `src/token.rs` (`enum KeyWords`); only the constructors the
lowering engine can observe are carried here, `Int` being the sole one it
accepts. -/
inductive KeyWords where
  | Int
  | Char
  | Float
  | Void
  deriving DecidableEq

/-- Operators, from `src/token.rs` (`enum Operators`). -/
inductive Operators where
  | Add
  | Assign
  | Division
  | Equal
  | Greater
  | GreaterEqual
  | Less
  | LessEqual
  | Minus
  | Mul
  | NotEqual
  deriving DecidableEq

/-- Numeric literals, from `src/token.rs` (`enum Numbers`); `SignedInt`
carries an `isize`, modelled as `Int` (the generator round-trips it through
`as u64`/`i64`, which is value-preserving for 64-bit machine integers). The
floating-point constructors are opaque here: the generator never consumes
their payloads, it panics on them. -/
inductive Numbers where
  | SignedInt (v : Int)
  | Float
  | Double
  deriving DecidableEq

/-- Lexical tokens, from `src/token.rs` (`enum Token`); `Identifier` drops its
`Type` payload, which the lowering engine never reads. -/
inductive Token where
  | KeyWord (k : KeyWords)
  | Number (n : Numbers)
  | Operator (op : Operators)
  | Identifier (name : String)
  | Semicolon
  deriving DecidableEq

/-! ## Syntax tree -/

/-- Modelled from the spec: `syntax_node.rs` is not in the snapshot.  Per §3
the node kind is "one of a closed set — function definition, function
parameter, return statement, if statement, variable declaration, assignment
statement, expression, terminal (wraps a lexical token), plus a few others
not exercised by this core"; the constructor names follow the arms the
generator's `dispatch_node` matches on.  `ForStmt`/`BreakStmt` stand for the
loop/break kinds that per §1/§8 must fail lowering. -/
inductive SyntaxType where
  | FuncDefine
  | FuncParam
  | ReturnStmt
  | IfStmt
  | VariableDefine
  | AssignStmt
  | Expr
  | Terminal (tok : Token)
  | ForStmt
  | BreakStmt
  deriving DecidableEq

/-- Modelled from the spec: a syntax node is its kind plus an ordered list of
children (§3); the arena indirection of `id_tree` is collapsed, node ids
becoming the subtrees themselves. -/
inductive Node where
  | mk (data : SyntaxType) (children : List Node)

/-- The node's kind (`self.data(id)` in the generator). -/
def Node.data : Node → SyntaxType
  | .mk d _ => d

/-- The node's ordered children (`self.children_ids(id)` in the generator). -/
def Node.children : Node → List Node
  | .mk _ c => c

/-- Modelled from the spec: a node "optionally exposes a bound identifier
name" (§3); terminals wrapping identifiers expose that name. -/
def SyntaxType.symbol : SyntaxType → Option String
  | .Terminal (.Identifier n) => some n
  | _ => none

/-- Modelled from the spec: a node optionally carries a lexical token (§3). -/
def SyntaxType.token : SyntaxType → Option Token
  | .Terminal t => some t
  | _ => none

/-- `ident_name` from the generator: the node's bound identifier name. -/
def ident_name (n : Node) : Option String :=
  n.data.symbol

/-! ## Backend values, instructions, state

The LLVM backend (`inkwell`) is external to the core; its contract is
modelled from spec §6.  Registers and stack addresses are numbered by a
single fresh counter; the register file and the integer memory give them
values, so emitted arithmetic can be compared against its specification. -/

/-- A backend value id (SSA register / stack address / constant cell). -/
abbrev Reg := Nat

/-- `AnyValueEnum`: the symbol table's value type — a register-bound integer
value, a stack address, or a function handle (spec §3's trichotomy, and the
three variants the generator ever stores). -/
inductive AnyValueEnum where
  | IntValue (r : Reg)
  | PointerValue (p : Reg)
  | FunctionValue (f : Nat)
  deriving DecidableEq

/-- `is_function_value` from the backend value enum. -/
def AnyValueEnum.is_function_value : AnyValueEnum → Bool
  | .FunctionValue _ => true
  | _ => false

/-- `into_function_value`, guarded by `is_function_value` in the source;
fails on the other variants. -/
def AnyValueEnum.into_function_value : AnyValueEnum → Option Nat
  | .FunctionValue f => some f
  | _ => none

/-- `into_int_value` on `AnyValueEnum`: the backend library's panicking
conversion — it produces the register only for an integer value. -/
def AnyValueEnum.into_int_value : AnyValueEnum → Option Reg
  | .IntValue r => some r
  | _ => none

/-- `into_pointer_value` on `AnyValueEnum`: panicking conversion to a stack
address. -/
def AnyValueEnum.into_pointer_value : AnyValueEnum → Option Reg
  | .PointerValue p => some p
  | _ => none

/-- Modelled from the spec: `as_int_value`, the cast used by the
return-by-identifier path.  Per §4.6 that path "look[s] up its bound value
and return[s] it directly as a register value" and "does not dereference an
address-bound identifier", so the cast hands back the underlying id for both
register-bound and address-bound values (the latent defect §9(a) preserves). -/
def AnyValueEnum.as_int_value : AnyValueEnum → Option Reg
  | .IntValue r => some r
  | .PointerValue p => some p
  | .FunctionValue _ => none

/-- A basic (storable) value, `BasicValueEnum` restricted to the variants the
generator can produce. -/
inductive BasicVal where
  | int (r : Reg)
  | ptr (p : Reg)
  deriving DecidableEq

/-- `any_value_into_basic_value` from the generator: function handles are the
one variant with no basic counterpart. -/
def any_value_into_basic_value : AnyValueEnum → Option BasicVal
  | .IntValue r => some (.int r)
  | .PointerValue p => some (.ptr p)
  | .FunctionValue _ => none

/-- `into_int_value` on a basic value (`BasicValueEnum::into_int_value`). -/
def basic_into_int_value : BasicVal → Option Reg
  | .int r => some r
  | .ptr _ => none

/-- The six signed comparison predicates the conditional lowering can emit. -/
inductive IntPredicate where
  | EQ
  | NE
  | SGT
  | SGE
  | SLT
  | SLE
  deriving DecidableEq

/-- Signed-integer meaning of a comparison predicate (spec §4.7). -/
def predHolds : IntPredicate → Int → Int → Bool
  | .EQ, a, b => a = b
  | .NE, a, b => a ≠ b
  | .SGT, a, b => b < a
  | .SGE, a, b => b ≤ a
  | .SLT, a, b => a < b
  | .SLE, a, b => a ≤ b

/-- An emitted backend instruction (the capability set of spec §6).  Branch
targets are block indices within the instruction's own function. -/
inductive Instr where
  | alloca (dst : Reg)
  | load (dst : Reg) (src : Reg)
  | store (val : BasicVal) (tgt : Reg)
  | add (dst : Reg) (a : Reg) (b : Reg)
  | icmp (pred : IntPredicate) (dst : Reg) (a : Reg) (b : Reg)
  | condBr (cond : Reg) (tb : Nat) (fb : Nat)
  | ret (v : Option BasicVal)
  deriving DecidableEq

/-- A basic block: a name and the instructions appended to it so far. -/
structure BasicBlock where
  name : String
  instrs : List Instr
  deriving DecidableEq

/-- A function under construction: its name, declared parameter count, the
registers holding its parameters, and its basic blocks in creation order. -/
structure FunctionDef where
  name : String
  nparams : Nat
  paramRegs : List Reg
  blocks : List BasicBlock
  deriving DecidableEq

/-- One lexical scope: a name-to-value mapping (spec §3), kept as an
association list with unique names. -/
abbrev Scope := List (String × AnyValueEnum)

/-- The whole generator state: the module under construction, the lowering
cursor (function index, block index), the scope stack with the innermost
scope first (the Rust `Vec` keeps it last and iterates with `rev()`),
the fresh-id counter, the register file and the integer memory. -/
structure GenState where
  functions : List FunctionDef
  cursor : Option (Nat × Nat)
  symbols : List Scope
  fresh : Nat
  regval : Reg → Int
  mem : Reg → Int

/-- Pointwise function update for register files and memories. -/
def upd (f : Reg → Int) (k : Reg) (v : Int) : Reg → Int :=
  fun x => if x = k then v else f x

/-! ## Scoped symbol table

Modelled from the spec (§3, §4.1): `symbol_manager.rs` is not in the
snapshot.  A scope is an ordered name-to-value mapping with unique names
(redefinition overwrites); the stack is ordered innermost first here. -/

/-- Bind `name` in one scope, overwriting any previous binding of the same
name (spec §4.1 `declare`). -/
def scopeInsert (name : String) (v : AnyValueEnum) (sc : Scope) : Scope :=
  (name, v) :: sc.filter (fun p => p.1 != name)

/-- `push_symbol`/`declare`: bind in the innermost open scope; a missing
scope is a programming error (the generator unwraps the result). -/
def push_symbol (name : String) (v : AnyValueEnum) (s : GenState) : Option GenState :=
  match s.symbols with
  | [] => none
  | sc :: rest => some { s with symbols := scopeInsert name v sc :: rest }

/-- `push_scope`: open a new innermost scope (spec §4.1). -/
def push_scope (s : GenState) : GenState :=
  { s with symbols := [] :: s.symbols }

/-- `pop_scope`: close the innermost scope; fails with no open scope
(spec §4.1). -/
def pop_scope (s : GenState) : Option GenState :=
  match s.symbols with
  | [] => none
  | _ :: rest => some { s with symbols := rest }

/-- `lookup`: search scopes innermost to outermost, first match wins
(spec §4.1). -/
def lookup : List Scope → String → Option AnyValueEnum
  | [], _ => none
  | sc :: rest, name =>
    match sc.find? (fun p => p.1 == name) with
    | some p => some p.2
    | none => lookup rest name

/-- The inner loop of `current_function` (source lines 75–80): the first
function handle among one scope's bindings. -/
def scanFn : Scope → Option Nat
  | [] => none
  | p :: rest =>
    match p.2.into_function_value with
    | some f => some f
    | none => scanFn rest

/-- `current_function` (source lines 73–85): scan all open scopes innermost
to outermost (`symbols().iter().rev()`) and return the first binding whose
value is a function handle; `unimplemented!()` — a panic — if none exists. -/
def current_function : List Scope → Option Nat
  | [] => none
  | sc :: rest =>
    match scanFn sc with
    | some f => some f
    | none => current_function rest

/-- All function handles reachable in the scope stack, in the scan order of
`current_function` (innermost scope first, binding order within a scope). -/
def fnHandles : List Scope → List Nat
  | [] => []
  | sc :: rest => sc.filterMap (fun p => p.2.into_function_value) ++ fnHandles rest

/-! ## Builder operations (backend contract, spec §6) -/

/-- Append an instruction at the cursor; building with no positioned cursor
or a dangling block handle is a backend-level crash. -/
def emit (i : Instr) (s : GenState) : Option GenState :=
  match s.cursor with
  | none => none
  | some (cf, cb) =>
    match s.functions[cf]? with
    | none => none
    | some fd =>
      match fd.blocks[cb]? with
      | none => none
      | some bb =>
        some { s with
          functions := s.functions.set cf
            { fd with blocks := fd.blocks.set cb { bb with instrs := bb.instrs ++ [i] } } }

/-- `const_int`: materialize an integer constant as a fresh value id holding
`v`; constants are not instructions, so nothing is emitted. -/
def const_int (v : Int) (s : GenState) : Reg × GenState :=
  (s.fresh, { s with fresh := s.fresh + 1, regval := upd s.regval s.fresh v })

/-- `build_load`: load from address `p` into a fresh register whose value is
the current memory content at `p`. -/
def build_load (p : Reg) (s : GenState) : Option (BasicVal × GenState) :=
  (emit (.load s.fresh p)
      { s with fresh := s.fresh + 1, regval := upd s.regval s.fresh (s.mem p) }).map
    (fun s' => (.int s.fresh, s'))

/-- `dereference_ptr` from the generator: build a load and recursively
dereference the result; the single storage type is the fixed-width integer,
so a load always produces an integer value and the recursion stops after one
load. -/
def dereference_ptr (p : Reg) (s : GenState) : Option (BasicVal × GenState) :=
  build_load p s

/-- `dereference_basic` from the generator: load through a pointer value,
pass every other value through. -/
def dereference_basic (v : BasicVal) (s : GenState) : Option (BasicVal × GenState) :=
  match v with
  | .ptr p => dereference_ptr p s
  | v => some (v, s)

/-- `build_int_add`: fresh register holding the sum. -/
def build_int_add (a b : Reg) (s : GenState) : Option (Reg × GenState) :=
  (emit (.add s.fresh a b)
      { s with fresh := s.fresh + 1,
               regval := upd s.regval s.fresh (s.regval a + s.regval b) }).map
    (fun s' => (s.fresh, s'))

/-- `build_int_compare`: fresh register holding the truth value (1 or 0) of
the signed comparison. -/
def build_int_compare (pred : IntPredicate) (a b : Reg) (s : GenState) :
    Option (Reg × GenState) :=
  (emit (.icmp pred s.fresh a b)
      { s with fresh := s.fresh + 1,
               regval := upd s.regval s.fresh
                 (if predHolds pred (s.regval a) (s.regval b) then 1 else 0) }).map
    (fun s' => (s.fresh, s'))

/-- The memory after storing basic value `v` at address `p`: storing an
integer value updates the integer memory; storing a pointer value is outside
the single-integer-type storage model (ill-typed for the backend), so the
modelled memory is unchanged. -/
def storeMem (v : BasicVal) (p : Reg) (s : GenState) : Reg → Int :=
  match v with
  | .int r => upd s.mem p (s.regval r)
  | .ptr _ => s.mem

/-- `build_store`: store a basic value to address `p`. -/
def build_store (v : BasicVal) (p : Reg) (s : GenState) : Option GenState :=
  emit (.store v p) { s with mem := storeMem v p s }

/-- `build_return`. -/
def build_return (v : Option BasicVal) (s : GenState) : Option GenState :=
  emit (.ret v) s

/-- `build_conditional_branch` to two blocks of the current function. -/
def build_conditional_branch (cond : Reg) (tb fb : Nat × Nat) (s : GenState) :
    Option GenState :=
  emit (.condBr cond tb.2 fb.2) s

/-- `build_alloca`: allocate addressable storage, returning its address. -/
def build_alloca (s : GenState) : Option (Reg × GenState) :=
  (emit (.alloca s.fresh) { s with fresh := s.fresh + 1 }).map
    (fun s' => (s.fresh, s'))

/-- `position_at_end`: move the lowering cursor to a block. -/
def position_at_end (bb : Nat × Nat) (s : GenState) : GenState :=
  { s with cursor := some bb }

/-- `append_basic_block`: add a fresh empty block at the end of function
`f`, returning its handle. -/
def append_basic_block (f : Nat) (name : String) (s : GenState) :
    Option ((Nat × Nat) × GenState) :=
  match s.functions[f]? with
  | none => none
  | some fd =>
    some ((f, fd.blocks.length),
      { s with functions := s.functions.set f { fd with blocks := fd.blocks ++ [⟨name, []⟩] } })

/-- `add_function`: declare a function with `nparams` integer parameters,
each parameter materialized as a fresh register. -/
def add_function (name : String) (nparams : Nat) (s : GenState) : Nat × GenState :=
  (s.functions.length,
    { s with
      functions := s.functions ++
        [{ name := name, nparams := nparams,
           paramRegs := (List.range nparams).map (s.fresh + ·), blocks := [] }],
      fresh := s.fresh + nparams })

/-! ## The lowering engine (`src/parser/llvm_ir_generater.rs`)

Each handler reproduces its Rust counterpart line by line; `none` is a panic
(or exhausted fuel).  Fuel strictly decreases on every recursive descent into
a node, while folds over a node's own children recurse structurally on the
child list. -/

/-- `llvm_basic_type` (source lines 407–412): only the `int` keyword has a
backend type (the 64-bit integer); any other token is `unimplemented!()`. -/
def llvm_basic_type (n : Node) : Option Unit :=
  match n.data.token with
  | some (.KeyWord .Int) => some ()
  | _ => none

/-- The operand coercion both `expr_gen` arms use (source lines 354–357 and
361–364): dereference a pointer value then take it as an integer; take any
other value as an integer directly (panicking on a function handle). -/
def operand_int : AnyValueEnum → GenState → Option (Reg × GenState)
  | .PointerValue p, s =>
    match dereference_ptr p s with
    | none => none
    | some (b, s) =>
      match basic_into_int_value b with
      | none => none
      | some r => some (r, s)
  | v, s =>
    match v.into_int_value with
    | none => none
    | some r => some (r, s)

mutual

/-- `expr_gen` (source lines 348–383): assert at least three children,
evaluate the first operand (dereferencing a pointer, else converting to an
integer value), then fold the (operator, operand) tail. -/
def expr_gen : Nat → Node → GenState → Option (AnyValueEnum × GenState)
  | 0, _, _ => none
  | fuel + 1, n, s =>
    match n.children with
    | c0 :: rest =>
      if rest.length < 2 then none
      else
        match llvm_value fuel c0 s with
        | none => none
        | some (v0, s) =>
          match operand_int v0 s with
          | none => none
          | some (lhs, s) =>
            match expr_loop fuel lhs rest s with
            | none => none
            | some (r, s) => some (.IntValue r, s)
    | [] => none
termination_by structural fuel _ _ => fuel

/-- The `loop` of `expr_gen` (source lines 360–378): take the operand two
slots ahead of the operator, combine under the operator — only `Add` is
implemented, any other operator is `unreachable!()` — and continue; running
out of children at the operand slot is an index panic. -/
def expr_loop : Nat → Reg → List Node → GenState → Option (Reg × GenState)
  | _, lhs, [], s => some (lhs, s)
  | _, _, [_], _ => none
  | 0, _, _ :: _ :: _, _ => none
  | fuel + 1, lhs, op :: rhsN :: rest, s =>
    match llvm_value fuel rhsN s with
    | none => none
    | some (rv, s) =>
      match operand_int rv s with
      | none => none
      | some (rhs, s) =>
        match op.data.token with
        | some (.Operator .Add) =>
          match build_int_add lhs rhs s with
          | none => none
          | some (r, s) => expr_loop fuel r rest s
        | _ => none
termination_by structural fuel _ _ _ => fuel

/-- `llvm_value` (source lines 385–405): a terminal identifier resolves by
scope lookup (`unreachable!()` on failure), a terminal number materializes a
constant, an expression node evaluates via `expr_gen`; every other kind is
`unreachable!()`. -/
def llvm_value : Nat → Node → GenState → Option (AnyValueEnum × GenState)
  | 0, _, _ => none
  | fuel + 1, n, s =>
    match n.data with
    | .Terminal (.Identifier name) =>
      match lookup s.symbols name with
      | some v => some (v, s)
      | none => none
    | .Terminal (.Number (.SignedInt v)) =>
      let (r, s) := const_int v s
      some (.IntValue r, s)
    | .Terminal _ => none
    | .Expr => expr_gen fuel n s
    | _ => none
termination_by structural fuel _ _ => fuel

end

/-- `return_stmt_gen` (source lines 260–293): no child emits a void return;
exactly one child is asserted otherwise; a numeric terminal returns a fresh
constant, an identifier terminal returns its bound value directly (no
dereference), an expression child returns the evaluated expression; any
other shape is `unimplemented!()`. -/
def return_stmt_gen (fuel : Nat) (n : Node) (s : GenState) : Option GenState :=
  match n.children with
  | [] => build_return none s
  | [c] =>
    match c.data with
    | .Terminal (.Number (.SignedInt v)) =>
      let (r, s) := const_int v s
      build_return (some (.int r)) s
    | .Terminal (.Identifier name) =>
      match lookup s.symbols name with
      | none => none
      | some v =>
        match v.as_int_value with
        | none => none
        | some r => build_return (some (.int r)) s
    | .Expr =>
      match expr_gen fuel c s with
      | none => none
      | some (v, s) =>
        match any_value_into_basic_value v with
        | none => none
        | some b => build_return (some b) s
    | _ => none
  | _ => none

/-- The operator-token-to-predicate match of `if_stmt_gen` (source lines
313–327); any other token is `unreachable!()`. -/
def relational_pred : Token → Option IntPredicate
  | .Operator .Equal => some .EQ
  | .Operator .NotEqual => some .NE
  | .Operator .Greater => some .SGT
  | .Operator .GreaterEqual => some .SGE
  | .Operator .Less => some .SLT
  | .Operator .LessEqual => some .SLE
  | _ => none

/-- The left-operand coercion of `if_stmt_gen` (source lines 303–308):
dereference a pointer value, convert any other value to a basic value
(`any_value_into_basic_value(value).unwrap()`). -/
def if_lhs_value (lv : AnyValueEnum) (s : GenState) : Option (BasicVal × GenState) :=
  match lv with
  | .PointerValue p => dereference_ptr p s
  | v =>
    match any_value_into_basic_value v with
    | none => none
    | some b => some (b, s)

/-- The optional-body stage of `if_stmt_gen` (source lines 339–342): when a
fourth child exists, position at the "if" block and lower it via
`return_stmt_gen`. -/
def if_body_stage (fuel : Nat) (childs : List Node) (tb : Nat × Nat) (s : GenState) :
    Option GenState :=
  if 3 < childs.length then
    match childs[3]? with
    | none => none
    | some c3 => return_stmt_gen fuel c3 (position_at_end tb s)
  else
    some s

/-- `if_stmt_gen` (source lines 298–346): evaluate the left operand,
dereferencing a pointer (lines 303–305), and take it as an integer; evaluate
the right operand and take it as an integer **without** dereferencing (line
310); build the signed comparison via the operator token; append an "if" and
an "endif" block to the current function; branch true → "if", false →
"endif"; lower the optional fourth child at the "if" block; and
unconditionally position at the "endif" block. -/
def if_stmt_gen (fuel : Nat) (n : Node) (s : GenState) : Option GenState :=
  match (n.children)[0]? with
  | none => none
  | some c0 =>
  match llvm_value fuel c0 s with
  | none => none
  | some (lv, s) =>
  match if_lhs_value lv s with
  | none => none
  | some (lb, s) =>
  match basic_into_int_value lb with
  | none => none
  | some lhs =>
  match (n.children)[2]? with
  | none => none
  | some c2 =>
  match llvm_value fuel c2 s with
  | none => none
  | some (rv, s) =>
  match rv.into_int_value with
  | none => none
  | some rhs =>
  match (n.children)[1]? with
  | none => none
  | some c1 =>
  match c1.data.token with
  | none => none
  | some tok =>
  match relational_pred tok with
  | none => none
  | some pred =>
  match build_int_compare pred lhs rhs s with
  | none => none
  | some (cond, s) =>
  match current_function s.symbols with
  | none => none
  | some f =>
  match append_basic_block f "if" s with
  | none => none
  | some (tb, s) =>
  match append_basic_block f "endif" s with
  | none => none
  | some (fb, s) =>
  match build_conditional_branch cond tb fb s with
  | none => none
  | some s =>
  match if_body_stage fuel n.children tb s with
  | none => none
  | some s => some (position_at_end fb s)

/-- `assign_stmt` (source lines 156–162): evaluate both children, convert
the target to a pointer (a panic when it is not one — there is no
recoverable `NotAssignable`), convert the source to a basic value **without**
dereferencing, and store. -/
def assign_stmt (fuel : Nat) (n : Node) (s : GenState) : Option GenState :=
  match (n.children)[0]? with
  | none => none
  | some c0 =>
  match (n.children)[1]? with
  | none => none
  | some c1 =>
  match llvm_value fuel c0 s with
  | none => none
  | some (pv, s) =>
  match llvm_value fuel c1 s with
  | none => none
  | some (vv, s) =>
  match pv.into_pointer_value with
  | none => none
  | some p =>
  match any_value_into_basic_value vv with
  | none => none
  | some b => build_store b p s

/-- The per-identifier loop of `variable_define` (source lines 169–175):
take the identifier's name (`unwrap`), allocate storage, bind the name to
the address. -/
def var_define_loop : List Node → GenState → Option GenState
  | [], s => some s
  | v :: rest, s =>
    match ident_name v with
    | none => none
    | some name =>
      match build_alloca s with
      | none => none
      | some (p, s) =>
        match push_symbol name (.PointerValue p) s with
        | none => none
        | some s => var_define_loop rest s

/-- `variable_define` (source lines 164–176): resolve the declared type from
the first child, then allocate and bind each remaining identifier. -/
def variable_define (n : Node) (s : GenState) : Option GenState :=
  match n.children with
  | [] => none
  | tyNode :: vars =>
    match llvm_basic_type tyNode with
    | none => none
    | some _ => var_define_loop vars s

/-- The parameter-collection loop of `function_gen` (source lines 185–197):
the contiguous `FuncParam` prefix of the children after the name, each
yielding a type and a name; the prefix ends at the first non-parameter
child. -/
def collect_params : List Node → Option (List String)
  | [] => some []
  | n :: rest =>
    match n.data with
    | .FuncParam =>
      match (n.children)[0]? with
      | none => none
      | some c0 =>
      match llvm_basic_type c0 with
      | none => none
      | some _ =>
      match (n.children)[1]? with
      | none => none
      | some c1 =>
      match ident_name c1 with
      | none => none
      | some nm =>
      match collect_params rest with
      | none => none
      | some tail => some (nm :: tail)
    | _ => some []

/-- The parameter-binding loop of `function_gen` (source lines 213–215):
bind each declared name, in order, to the corresponding parameter register;
a parameter beyond the declared names is an index panic. -/
def bind_params : List Reg → List String → GenState → Option GenState
  | [], _, s => some s
  | _ :: _, [], _ => none
  | r :: rs, nm :: nms, s =>
    match push_symbol nm (.IntValue r) s with
    | none => none
    | some s => bind_params rs nms s

mutual

/-- `dispatch_node` (source lines 143–154): dispatch strictly on the node
kind; any unhandled kind — loops and breaks included — is
`unimplemented!()`, an uncatchable panic, not a recoverable error value. -/
def dispatch_node : Nat → Node → GenState → Option GenState
  | 0, _, _ => none
  | fuel + 1, n, s =>
    match n.data with
    | .FuncDefine => function_gen fuel n s
    | .ReturnStmt => return_stmt_gen fuel n s
    | .IfStmt => if_stmt_gen fuel n s
    | .VariableDefine => variable_define n s
    | .AssignStmt => assign_stmt fuel n s
    | _ => none
termination_by structural fuel _ _ => fuel

/-- `function_gen` (source lines 178–258): read the function's name from the
second child, collect the contiguous parameter prefix, declare the function
in the backend, register its handle under its name in the *current*
(enclosing) scope, only then open the function's own scope (the
`__scope_guard`), append and enter the entry block, check the declared
parameter count against the backend's (`assert_eq!`), bind the parameters,
lower the remaining children in order, and close the scope (the guard
fires). -/
def function_gen : Nat → Node → GenState → Option GenState
  | 0, _, _ => none
  | fuel + 1, n, s =>
    match (n.children)[1]? with
    | none => none
    | some nameNode =>
    match ident_name nameNode with
    | none => none
    | some fn_name =>
    match collect_params (n.children.drop 2) with
    | none => none
    | some args_name =>
    match add_function fn_name args_name.length s with
    | (fidx, s) =>
    match push_symbol fn_name (.FunctionValue fidx) s with
    | none => none
    | some s =>
    match append_basic_block fidx fn_name (push_scope s) with
    | none => none
    | some (bb, s) =>
    match (position_at_end bb s).functions[fidx]? with
    | none => none
    | some fd =>
    if fd.nparams = args_name.length then
      match bind_params fd.paramRegs args_name (position_at_end bb s) with
      | none => none
      | some s =>
      match dispatch_list fuel (n.children.drop (args_name.length + 2)) s with
      | none => none
      | some s => pop_scope s
    else
      none
termination_by structural fuel _ _ => fuel

/-- The driver loop shared by `ir_gen` (source lines 134–136) and the body
loop of `function_gen` (source lines 253–255): lower each node in order,
stopping at the first panic. -/
def dispatch_list : Nat → List Node → GenState → Option GenState
  | _, [], s => some s
  | 0, _ :: _, _ => none
  | fuel + 1, n :: rest, s =>
    match dispatch_node fuel n s with
    | none => none
    | some s => dispatch_list fuel rest s
termination_by structural fuel _ _ => fuel

end

/-- Whether an instruction closes a basic block. -/
def Instr.isTerminator : Instr → Bool
  | .ret _ => true
  | .condBr _ _ _ => true
  | _ => false

/-- Modelled from the spec: backend module verification — a "backend-side
structural/type check of the fully lowered unit" (glossary, §6) that
"either succeeds or fails atomically" (§5); abstracted here as the check
that every block of every function is closed by a terminator. -/
def module_verify (fns : List FunctionDef) : Bool :=
  fns.all fun fd => fd.blocks.all fun bb =>
    match bb.instrs.getLast? with
    | some i => i.isTerminator
    | none => false

/-- The state `LLVMIRGenerater::new` starts from (source lines 107–121): an
empty module, no positioned cursor, a fresh symbol manager holding the
single global scope. -/
def initGen : GenState :=
  { functions := [], cursor := none, symbols := [[]], fresh := 0,
    regval := fun _ => 0, mem := fun _ => 0 }

/-- `ir_gen` (source lines 131–141): lower each child of the root in order,
then verify the module — an `unwrap`, hence a panic on failure — and return
`Ok(())`; the `Err` variant of the `Result` is never built. -/
def ir_gen (fuel : Nat) (root : Node) : Option (Except Unit Unit × GenState) :=
  match dispatch_list fuel root.children initGen with
  | none => none
  | some s => if module_verify s.functions then some (.ok (), s) else none

/-! ## Node and state builders for concrete instantiations -/

/-- A childless terminal node. -/
def tTerm (t : Token) : Node := Node.mk (.Terminal t) []

/-- A terminal identifier node. -/
def tId (x : String) : Node := tTerm (.Identifier x)

/-- A terminal numeric-literal node. -/
def tNum (v : Int) : Node := tTerm (.Number (.SignedInt v))

/-- A terminal operator node. -/
def tOp (o : Operators) : Node := tTerm (.Operator o)

/-- The instruction list of block `cb` of function `cf` ([] when the indices
dangle). -/
def instrsAt (s : GenState) (cf cb : Nat) : List Instr :=
  match s.functions[cf]? with
  | some fd =>
    match fd.blocks[cb]? with
    | some bb => bb.instrs
    | none => []
  | none => []

/-- A one-function, one-empty-block state with the cursor at that block: the
state right after a function prologue, parameterized by the scope stack and
the fresh counter. -/
def oneBlockState (syms : List Scope) (fresh : Nat) : GenState :=
  { functions := [{ name := "f", nparams := 0, paramRegs := [],
                    blocks := [{ name := "entry", instrs := [] }] }],
    cursor := some (0, 0), symbols := syms, fresh := fresh,
    regval := fun _ => 0, mem := fun _ => 0 }

/-- How a pure code-emission step (constant materialization, load, add,
compare — the operations expression evaluation performs) may change the
state: scopes, cursor and memory are untouched, the fresh counter only
grows, already-allocated registers keep their values, and every existing
basic block only gains appended instructions. -/
structure Ev (s s' : GenState) : Prop where
  symbols : s'.symbols = s.symbols
  cursor : s'.cursor = s.cursor
  mem : s'.mem = s.mem
  fresh_le : s.fresh ≤ s'.fresh
  regval : ∀ r, r < s.fresh → s'.regval r = s.regval r
  funlen : s'.functions.length = s.functions.length
  blocks : ∀ (fi : Nat) (fd : FunctionDef), s.functions[fi]? = some fd →
    ∃ fd', s'.functions[fi]? = some fd' ∧ fd'.name = fd.name ∧ fd'.nparams = fd.nparams ∧
      fd'.paramRegs = fd.paramRegs ∧ fd'.blocks.length = fd.blocks.length ∧
      ∀ (bi : Nat) (bb : BasicBlock), fd.blocks[bi]? = some bb →
        ∃ t, fd'.blocks[bi]? = some { bb with instrs := bb.instrs ++ t }

/-- The state of the conditional lowering just after its comparison,
block-allocation and branch stage, for register-bound operands `la`/`ra`:
the current block gains the signed comparison (register `s.fresh`) and the
conditional branch whose true edge targets the new "if" block (index
`fd.blocks.length`) and whose false edge targets the new "endif" block
(index `fd.blocks.length + 1`); exactly those two blocks are appended. -/
def ifMidState (s : GenState) (cf cb : Nat) (fd : FunctionDef) (bb : BasicBlock)
    (pred : IntPredicate) (la ra : Reg) : GenState :=
  { s with
    functions := s.functions.set cf { fd with blocks := fd.blocks.set cb { bb with instrs := bb.instrs ++ [.icmp pred s.fresh la ra, .condBr s.fresh fd.blocks.length (fd.blocks.length + 1)] } ++ [{ name := "if", instrs := [] }, { name := "endif", instrs := [] }] },
    fresh := s.fresh + 1,
    regval := upd s.regval s.fresh (if predHolds pred (s.regval la) (s.regval ra) then 1 else 0) }

/-- A leaf operand of an additive expression: a numeric literal or an
identifier. -/
inductive Operand where
  | num (v : Int)
  | var (x : String)

/-- The syntax node of an operand. -/
def Operand.node : Operand → Node
  | .num v => tNum v
  | .var x => tId x

/-- The child tail of an additive expression: an `Add` operator token before
each further operand. -/
def exprTail : List Operand → List Node
  | [] => []
  | x :: rest => tOp .Add :: x.node :: exprTail rest

/-- The children of an additive expression node with first operand `x0` and
further operands `xs` (so `1 + 2·|xs|` children, operands and operators
alternating). -/
def exprChildren (x0 : Operand) (xs : List Operand) : List Node :=
  x0.node :: exprTail xs

/-- Whether an operand resolves in scope to something expression evaluation
accepts: a literal always does; an identifier must be bound either to an
allocated register (a value id below the fresh counter) or to an address. -/
def Operand.resolvesB : Operand → GenState → Bool
  | .num _, _ => true
  | .var x, s =>
    match lookup s.symbols x with
    | some (.IntValue r) => decide (r < s.fresh)
    | some (.PointerValue _) => true
    | _ => false

/-- The integer an operand denotes: a literal denotes itself; a
register-bound identifier denotes the register's content; an address-bound
identifier denotes the memory content at the address (the value a load —
a dereference — produces). -/
def Operand.value : Operand → GenState → Int
  | .num v, _ => v
  | .var x, s =>
    match lookup s.symbols x with
    | some (.IntValue r) => s.regval r
    | some (.PointerValue p) => s.mem p
    | _ => 0

/-- The cursor points at an existing block of an existing function, so the
builder can emit instructions. -/
def CursorOK (s : GenState) : Prop :=
  ∃ cf cb fd bb, s.cursor = some (cf, cb) ∧ s.functions[cf]? = some fd ∧
    fd.blocks[cb]? = some bb

/-! ## General lemmas about the symbol table -/

/-- `scanFn` returns the head of the list of function handles bound in one
scope, in binding order. -/
theorem scanFn_eq_head (sc : Scope) :
    scanFn sc = (sc.filterMap (fun p => p.2.into_function_value)).head? := by
  induction sc with
  | nil => rfl
  | cons p rest ih =>
    cases hv : p.2.into_function_value with
    | none => simpa [scanFn, List.filterMap_cons, hv] using ih
    | some f => simp [scanFn, List.filterMap_cons, hv]

/-- `current_function` returns the head of the list of all reachable function
handles, scanned innermost scope first. -/
theorem current_function_eq_head (syms : List Scope) :
    current_function syms = (fnHandles syms).head? := by
  induction syms with
  | nil => rfl
  | cons sc rest ih =>
    rw [current_function, fnHandles, scanFn_eq_head]
    cases hh : (sc.filterMap (fun p => p.2.into_function_value)) with
    | nil => simpa using ih
    | cons f fs => simp

/-! ## State-evolution lemmas -/

/-- The blocks clause of `Ev` holds reflexively. -/
theorem ev_blocks_refl (fns : List FunctionDef) :
    ∀ (fi : Nat) (fd : FunctionDef), fns[fi]? = some fd →
      ∃ fd', fns[fi]? = some fd' ∧ fd'.name = fd.name ∧ fd'.nparams = fd.nparams ∧
        fd'.paramRegs = fd.paramRegs ∧ fd'.blocks.length = fd.blocks.length ∧
        ∀ (bi : Nat) (bb : BasicBlock), fd.blocks[bi]? = some bb →
          ∃ t, fd'.blocks[bi]? = some { bb with instrs := bb.instrs ++ t } :=
  fun _ fd h => ⟨fd, h, rfl, rfl, rfl, rfl, fun _ bb hb => ⟨[], by simpa using hb⟩⟩

/-- `Ev` is reflexive. -/
theorem ev_refl (s : GenState) : Ev s s :=
  ⟨rfl, rfl, rfl, Nat.le_refl _, fun _ _ => rfl, rfl, ev_blocks_refl s.functions⟩

/-- `Ev` composes. -/
theorem ev_trans {s₁ s₂ s₃ : GenState} (h₁ : Ev s₁ s₂) (h₂ : Ev s₂ s₃) : Ev s₁ s₃ := by
  refine ⟨h₂.symbols.trans h₁.symbols, h₂.cursor.trans h₁.cursor, h₂.mem.trans h₁.mem,
    Nat.le_trans h₁.fresh_le h₂.fresh_le, ?_, h₂.funlen.trans h₁.funlen, ?_⟩
  · intro r hr
    exact (h₂.regval r (Nat.lt_of_lt_of_le hr h₁.fresh_le)).trans (h₁.regval r hr)
  · intro fi fd hfd
    obtain ⟨fd', hfd', hn, hp, hr, hl, hb⟩ := h₁.blocks fi fd hfd
    obtain ⟨fd'', hfd'', hn', hp', hr', hl', hb'⟩ := h₂.blocks fi fd' hfd'
    refine ⟨fd'', hfd'', hn'.trans hn, hp'.trans hp, hr'.trans hr, hl'.trans hl, ?_⟩
    intro bi bb hbb
    obtain ⟨t₁, h₁b⟩ := hb bi bb hbb
    obtain ⟨t₂, h₂b⟩ := hb' bi _ h₁b
    exact ⟨t₁ ++ t₂, by simpa [List.append_assoc] using h₂b⟩

/-- `emit` evolves the state. -/
theorem ev_emit {i : Instr} {s s' : GenState} (h : emit i s = some s') : Ev s s' := by
  unfold emit at h
  split at h
  · exact absurd h (by simp)
  · rename_i cf cb hc
    split at h
    · simp at h
    · rename_i fd hf
      split at h
      · simp at h
      · rename_i bb hb
        have hcf : cf < s.functions.length := (List.getElem?_eq_some.mp hf).1
        have hcb : cb < fd.blocks.length := (List.getElem?_eq_some.mp hb).1
        obtain rfl : _ = s' := Option.some.inj h
        refine ⟨rfl, rfl, rfl, Nat.le_refl _, fun _ _ => rfl, by simp, ?_⟩
        intro fi fd0 hfd0
        by_cases hfi : cf = fi
        · subst hfi
          rw [hf] at hfd0
          obtain rfl := Option.some.inj hfd0
          refine ⟨{ fd with blocks := fd.blocks.set cb { bb with instrs := bb.instrs ++ [i] } },
            List.getElem?_set_self hcf, rfl, rfl, rfl, by simp, ?_⟩
          intro bi bb0 hbb0
          by_cases hbi : cb = bi
          · subst hbi
            rw [hb] at hbb0
            obtain rfl := Option.some.inj hbb0
            exact ⟨[i], by simp [List.getElem?_set_self hcb]⟩
          · exact ⟨[], by simpa [List.getElem?_set_ne hbi] using hbb0⟩
        · refine ⟨fd0, ?_, rfl, rfl, rfl, rfl, fun bi bb0 hbb0 => ⟨[], by simpa using hbb0⟩⟩
          simpa [List.getElem?_set_ne hfi] using hfd0

/-- `const_int` evolves the state. -/
theorem ev_const_int (v : Int) (s : GenState) : Ev s (const_int v s).2 := by
  refine ⟨rfl, rfl, rfl, Nat.le_succ _, ?_, rfl, ev_blocks_refl s.functions⟩
  intro r hr
  simp [const_int, upd, Nat.ne_of_lt hr]

/-- `build_load` evolves the state. -/
theorem ev_build_load {p : Reg} {s : GenState} {b : BasicVal} {s' : GenState}
    (h : build_load p s = some (b, s')) : Ev s s' := by
  unfold build_load at h
  rcases Option.map_eq_some'.mp h with ⟨s₁, he, hpair⟩
  obtain ⟨-, rfl⟩ := Prod.mk.inj hpair
  · have h₂ := ev_emit he
    refine ⟨h₂.symbols, h₂.cursor, h₂.mem, ?_, ?_, h₂.funlen, h₂.blocks⟩
    · exact Nat.le_trans (Nat.le_succ _) h₂.fresh_le
    · intro r hr
      rw [h₂.regval r (Nat.lt_succ_of_lt hr)]
      simp [upd, Nat.ne_of_lt hr]

/-- `build_int_add` evolves the state. -/
theorem ev_build_int_add {a b : Reg} {s : GenState} {r : Reg} {s' : GenState}
    (h : build_int_add a b s = some (r, s')) : Ev s s' := by
  unfold build_int_add at h
  rcases Option.map_eq_some'.mp h with ⟨s₁, he, hpair⟩
  obtain ⟨-, rfl⟩ := Prod.mk.inj hpair
  · have h₂ := ev_emit he
    refine ⟨h₂.symbols, h₂.cursor, h₂.mem, ?_, ?_, h₂.funlen, h₂.blocks⟩
    · exact Nat.le_trans (Nat.le_succ _) h₂.fresh_le
    · intro r' hr
      rw [h₂.regval r' (Nat.lt_succ_of_lt hr)]
      simp [upd, Nat.ne_of_lt hr]

/-- `build_int_compare` evolves the state. -/
theorem ev_build_int_compare {pred : IntPredicate} {a b : Reg} {s : GenState} {r : Reg}
    {s' : GenState} (h : build_int_compare pred a b s = some (r, s')) : Ev s s' := by
  unfold build_int_compare at h
  rcases Option.map_eq_some'.mp h with ⟨s₁, he, hpair⟩
  obtain ⟨-, rfl⟩ := Prod.mk.inj hpair
  · have h₂ := ev_emit he
    refine ⟨h₂.symbols, h₂.cursor, h₂.mem, ?_, ?_, h₂.funlen, h₂.blocks⟩
    · exact Nat.le_trans (Nat.le_succ _) h₂.fresh_le
    · intro r' hr
      rw [h₂.regval r' (Nat.lt_succ_of_lt hr)]
      simp [upd, Nat.ne_of_lt hr]

/-- `operand_int` evolves the state. -/
theorem ev_operand_int {v : AnyValueEnum} {s : GenState} {r : Reg} {s' : GenState}
    (h : operand_int v s = some (r, s')) : Ev s s' := by
  cases v with
  | PointerValue p =>
    simp only [operand_int] at h
    split at h
    · exact absurd h (by simp)
    · rename_i b s₁ hload
      split at h
      · simp at h
      · rename_i r' hr
        obtain ⟨-, rfl⟩ := Prod.mk.injEq .. ▸ Prod.mk.inj (Option.some.inj h)
        exact ev_build_load hload
  | IntValue r' =>
    simp only [operand_int, AnyValueEnum.into_int_value] at h
    obtain ⟨-, rfl⟩ := Prod.mk.injEq .. ▸ Prod.mk.inj (Option.some.inj h)
    exact ev_refl s
  | FunctionValue f =>
    simp [operand_int, AnyValueEnum.into_int_value] at h

/-- The three expression-evaluation functions evolve the state. -/
theorem ev_expr_group (fuel : Nat) :
    (∀ n s v s', llvm_value fuel n s = some (v, s') → Ev s s') ∧
    (∀ n s v s', expr_gen fuel n s = some (v, s') → Ev s s') ∧
    (∀ lhs l s r s', expr_loop fuel lhs l s = some (r, s') → Ev s s') := by
  induction fuel with
  | zero =>
    refine ⟨fun n s v s' h => absurd h (by simp [llvm_value]),
      fun n s v s' h => absurd h (by simp [expr_gen]), fun lhs l s r s' h => ?_⟩
    match l with
    | [] =>
      simp only [expr_loop] at h
      obtain ⟨-, rfl⟩ := Prod.mk.injEq .. ▸ Prod.mk.inj (Option.some.inj h)
      exact ev_refl s
    | [x] => simp [expr_loop] at h
    | x :: y :: rest => simp [expr_loop] at h
  | succ g ih =>
    obtain ⟨ihv, ihe, ihl⟩ := ih
    have hval : ∀ n s v s', llvm_value (g + 1) n s = some (v, s') → Ev s s' := by
      intro n s v s' h
      obtain ⟨d, cs⟩ := n
      cases d with
      | Terminal tok =>
        cases tok with
        | Identifier x =>
          simp only [llvm_value, Node.data] at h
          cases hl : lookup s.symbols x with
          | none => rw [hl] at h; simp at h
          | some vv =>
            rw [hl] at h
            obtain ⟨-, rfl⟩ := Prod.mk.injEq .. ▸ Prod.mk.inj (Option.some.inj h)
            exact ev_refl s
        | Number nv =>
          cases nv with
          | SignedInt i =>
            simp only [llvm_value, Node.data] at h
            obtain ⟨-, rfl⟩ := Prod.mk.injEq .. ▸ Prod.mk.inj (Option.some.inj h)
            exact ev_const_int i s
          | Float => simp [llvm_value, Node.data] at h
          | Double => simp [llvm_value, Node.data] at h
        | KeyWord k => simp [llvm_value, Node.data] at h
        | Operator o => simp [llvm_value, Node.data] at h
        | Semicolon => simp [llvm_value, Node.data] at h
      | Expr => exact ihe _ _ _ _ (by simpa [llvm_value, Node.data] using h)
      | FuncDefine => simp [llvm_value, Node.data] at h
      | FuncParam => simp [llvm_value, Node.data] at h
      | ReturnStmt => simp [llvm_value, Node.data] at h
      | IfStmt => simp [llvm_value, Node.data] at h
      | VariableDefine => simp [llvm_value, Node.data] at h
      | AssignStmt => simp [llvm_value, Node.data] at h
      | ForStmt => simp [llvm_value, Node.data] at h
      | BreakStmt => simp [llvm_value, Node.data] at h
    have hloop : ∀ lhs l s r s', expr_loop (g + 1) lhs l s = some (r, s') → Ev s s' := by
      intro lhs l s r s' h
      match l with
      | [] =>
        simp only [expr_loop] at h
        obtain ⟨-, rfl⟩ := Prod.mk.injEq .. ▸ Prod.mk.inj (Option.some.inj h)
        exact ev_refl s
      | [x] => simp [expr_loop] at h
      | op :: rhsN :: rest =>
        simp only [expr_loop] at h
        split at h
        · exact absurd h (by simp)
        · rename_i rv s₁ hv
          split at h
          · simp at h
          · rename_i rr s₂ ho
            have e₁ : Ev s s₁ := ihv _ _ _ _ hv
            have e₂ : Ev s₁ s₂ := ev_operand_int ho
            split at h
            · rename_i htok
              split at h
              · simp at h
              · rename_i r₃ s₃ hadd
                exact ev_trans e₁ (ev_trans e₂
                  (ev_trans (ev_build_int_add hadd) (ihl _ _ _ _ _ h)))
            · simp at h
    refine ⟨hval, ?_, hloop⟩
    intro n s v s' h
    obtain ⟨d, cs⟩ := n
    cases hcs : cs with
    | nil =>
      subst hcs
      simp [expr_gen, Node.children] at h
    | cons c0 rest =>
      subst hcs
      simp only [expr_gen, Node.children] at h
      by_cases hlen : rest.length < 2
      · simp [hlen] at h
      · simp only [hlen, if_false] at h
        split at h
        · exact absurd h (by simp)
        · rename_i v0 s₁ hv0
          split at h
          · simp at h
          · rename_i l0 s₂ hop
            split at h
            · simp at h
            · rename_i r₃ s₃ hlp
              obtain ⟨-, rfl⟩ := Prod.mk.injEq .. ▸ Prod.mk.inj (Option.some.inj h)
              exact ev_trans (ihv _ _ _ _ hv0)
                (ev_trans (ev_operand_int hop) (ihl _ _ _ _ _ hlp))

/-- `llvm_value` evolves the state. -/
theorem ev_llvm_value {fuel : Nat} {n : Node} {s : GenState} {v : AnyValueEnum} {s' : GenState}
    (h : llvm_value fuel n s = some (v, s')) : Ev s s' :=
  (ev_expr_group fuel).1 n s v s' h

/-- `expr_gen` evolves the state. -/
theorem ev_expr_gen {fuel : Nat} {n : Node} {s : GenState} {v : AnyValueEnum} {s' : GenState}
    (h : expr_gen fuel n s = some (v, s')) : Ev s s' :=
  (ev_expr_group fuel).2.1 n s v s' h

/-- `expr_loop` evolves the state. -/
theorem ev_expr_loop {fuel : Nat} {lhs : Reg} {l : List Node} {s : GenState} {r : Reg}
    {s' : GenState} (h : expr_loop fuel lhs l s = some (r, s')) : Ev s s' :=
  (ev_expr_group fuel).2.2 lhs l s r s' h

/-! ## Characterization of the builder operations -/

/-- `upd` at the updated point. -/
theorem upd_self (f : Reg → Int) (k : Reg) (v : Int) : upd f k v k = v := by
  simp [upd]

/-- `upd` elsewhere. -/
theorem upd_ne (f : Reg → Int) (k : Reg) (v : Int) (x : Reg) (h : x ≠ k) :
    upd f k v x = f x := by
  simp [upd, h]

/-- What `emit` does when the cursor and its block handle are valid. -/
theorem emit_eq {s : GenState} {cf cb : Nat} {fd : FunctionDef} {bb : BasicBlock}
    (hc : s.cursor = some (cf, cb)) (hf : s.functions[cf]? = some fd)
    (hb : fd.blocks[cb]? = some bb) (i : Instr) :
    emit i s = some { s with
      functions := s.functions.set cf { fd with blocks := fd.blocks.set cb { bb with instrs := bb.instrs ++ [i] } } } := by
  simp only [emit, hc, hf, hb]

/-- What `build_load` does when the cursor is valid. -/
theorem build_load_eq {s : GenState} {cf cb : Nat} {fd : FunctionDef} {bb : BasicBlock}
    (hc : s.cursor = some (cf, cb)) (hf : s.functions[cf]? = some fd)
    (hb : fd.blocks[cb]? = some bb) (p : Reg) :
    build_load p s = some (.int s.fresh, { s with
      fresh := s.fresh + 1,
      regval := upd s.regval s.fresh (s.mem p),
      functions := s.functions.set cf { fd with blocks := fd.blocks.set cb { bb with instrs := bb.instrs ++ [.load s.fresh p] } } }) := by
  simp [build_load, emit, hc, hf, hb]

/-- What `build_int_add` does when the cursor is valid. -/
theorem build_int_add_eq {s : GenState} {cf cb : Nat} {fd : FunctionDef} {bb : BasicBlock}
    (hc : s.cursor = some (cf, cb)) (hf : s.functions[cf]? = some fd)
    (hb : fd.blocks[cb]? = some bb) (a b : Reg) :
    build_int_add a b s = some (s.fresh, { s with
      fresh := s.fresh + 1,
      regval := upd s.regval s.fresh (s.regval a + s.regval b),
      functions := s.functions.set cf { fd with blocks := fd.blocks.set cb { bb with instrs := bb.instrs ++ [.add s.fresh a b] } } }) := by
  simp [build_int_add, emit, hc, hf, hb]

/-- What `build_int_compare` does when the cursor is valid. -/
theorem build_int_compare_eq {s : GenState} {cf cb : Nat} {fd : FunctionDef} {bb : BasicBlock}
    (hc : s.cursor = some (cf, cb)) (hf : s.functions[cf]? = some fd)
    (hb : fd.blocks[cb]? = some bb) (pred : IntPredicate) (a b : Reg) :
    build_int_compare pred a b s = some (s.fresh, { s with
      fresh := s.fresh + 1,
      regval := upd s.regval s.fresh (if predHolds pred (s.regval a) (s.regval b) then 1 else 0),
      functions := s.functions.set cf { fd with blocks := fd.blocks.set cb { bb with instrs := bb.instrs ++ [.icmp pred s.fresh a b] } } }) := by
  simp [build_int_compare, emit, hc, hf, hb]

/-- What `append_basic_block` does when the function handle is valid. -/
theorem append_basic_block_eq {s : GenState} {f : Nat} {fd : FunctionDef}
    (hf : s.functions[f]? = some fd) (name : String) :
    append_basic_block f name s = some ((f, fd.blocks.length),
      { s with functions := s.functions.set f { fd with blocks := fd.blocks ++ [{ name := name, instrs := [] }] } }) := by
  simp only [append_basic_block, hf]

/-- `llvm_value` on a terminal identifier that resolves. -/
theorem llvm_value_ident {s : GenState} {x : String} {v : AnyValueEnum}
    (hx : lookup s.symbols x = some v) (fuel : Nat) :
    llvm_value (fuel + 1) (tId x) s = some (v, s) := by
  simp only [llvm_value, tId, tTerm, Node.data, hx]

/-- `llvm_value` on a terminal numeric literal. -/
theorem llvm_value_num (s : GenState) (v : Int) (fuel : Nat) :
    llvm_value (fuel + 1) (tNum v) s =
      some (.IntValue s.fresh, { s with fresh := s.fresh + 1, regval := upd s.regval s.fresh v }) := by
  simp only [llvm_value, tNum, tTerm, Node.data, const_int]

/-! ## Operand evaluation lemmas -/

/-- A state evolution preserves cursor validity: the cursor is unmoved and
the function and block it points at still exist. -/
theorem ev_cursorOK {s s' : GenState} (h : Ev s s') (hok : CursorOK s) :
    CursorOK s' := by
  obtain ⟨cf, cb, fd, bb, hc, hf, hb⟩ := hok
  obtain ⟨fd', hf', -, -, -, -, hbl⟩ := h.blocks cf fd hf
  obtain ⟨t, hb'⟩ := hbl cb bb hb
  exact ⟨cf, cb, fd', _, h.cursor.trans hc, hf', hb'⟩

/-- A state evolution preserves operand resolvability: scopes are untouched
and the fresh counter only grows. -/
theorem resolvesB_ev {a : Operand} {s s' : GenState} (h : Ev s s')
    (ha : a.resolvesB s = true) : a.resolvesB s' = true := by
  cases a with
  | num v => rfl
  | var x =>
    cases hl : lookup s.symbols x with
    | none => exact absurd ha (by simp [Operand.resolvesB, hl])
    | some v =>
      cases v with
      | IntValue r =>
        have hr : r < s.fresh := by simpa [Operand.resolvesB, hl] using ha
        simp only [Operand.resolvesB, h.symbols, hl]
        simpa using Nat.lt_of_lt_of_le hr h.fresh_le
      | PointerValue p => simp [Operand.resolvesB, h.symbols, hl]
      | FunctionValue f => exact absurd ha (by simp [Operand.resolvesB, hl])

/-- A state evolution preserves the value a resolvable operand denotes:
scopes and memory are untouched and allocated registers keep their values. -/
theorem value_ev {a : Operand} {s s' : GenState} (h : Ev s s')
    (ha : a.resolvesB s = true) : a.value s' = a.value s := by
  cases a with
  | num v => rfl
  | var x =>
    cases hl : lookup s.symbols x with
    | none => simp [Operand.value, h.symbols, hl]
    | some v =>
      cases v with
      | IntValue r =>
        have hr : r < s.fresh := by simpa [Operand.resolvesB, hl] using ha
        simp [Operand.value, h.symbols, hl, h.regval r hr]
      | PointerValue p => simp [Operand.value, h.symbols, hl, h.mem]
      | FunctionValue f => simp [Operand.value, h.symbols, hl]

/-- Folding addition over operand values only depends on the values. -/
theorem foldl_value_congr (xs : List Operand) (s s' : GenState)
    (h : ∀ a ∈ xs, a.value s' = a.value s) :
    ∀ c : Int, xs.foldl (fun c a => c + a.value s') c =
      xs.foldl (fun c a => c + a.value s) c := by
  induction xs with
  | nil => intro c; rfl
  | cons x rest ih =>
    intro c
    simp only [List.foldl_cons]
    rw [h x (List.mem_cons_self x rest)]
    exact ih (fun a ha => h a (List.mem_cons_of_mem x ha)) _

/-- The expression tail has two children per further operand. -/
theorem exprTail_length (xs : List Operand) :
    (exprTail xs).length = 2 * xs.length := by
  induction xs with
  | nil => rfl
  | cons x rest ih =>
    simp only [exprTail, List.length_cons, ih]
    omega

/-- Evaluating one resolvable operand the way both `expr_gen` arms do —
`llvm_value` then the integer coercion — succeeds and produces a register
holding the operand's value: a literal via a fresh constant, a
register-bound identifier via its register, an address-bound identifier via
a load of the memory content (the dereference). -/
theorem operand_eval (a : Operand) (g : Nat) (u : GenState)
    (hok : CursorOK u) (ha : a.resolvesB u = true) :
    ∃ v u₁ r u', llvm_value (g + 1) a.node u = some (v, u₁) ∧
      operand_int v u₁ = some (r, u') ∧ Ev u u' ∧ r < u'.fresh ∧
      u'.regval r = a.value u := by
  cases a with
  | num w =>
    refine ⟨.IntValue u.fresh, _, u.fresh, _, llvm_value_num u w g, rfl,
      ev_const_int w u, Nat.lt_succ_self _, ?_⟩
    exact upd_self u.regval u.fresh w
  | var x =>
    cases hl : lookup u.symbols x with
    | none => exact absurd ha (by simp [Operand.resolvesB, hl])
    | some v =>
      cases v with
      | IntValue r =>
        have hr : r < u.fresh := by simpa [Operand.resolvesB, hl] using ha
        refine ⟨.IntValue r, u, r, u, llvm_value_ident hl g, rfl, ev_refl u, hr, ?_⟩
        simp [Operand.value, hl]
      | PointerValue p =>
        obtain ⟨cf, cb, fd, bb, hc, hf, hb⟩ := hok
        have hload := build_load_eq hc hf hb p
        have hoi : operand_int (.PointerValue p) u =
            some (u.fresh, { u with
              fresh := u.fresh + 1,
              regval := upd u.regval u.fresh (u.mem p),
              functions := u.functions.set cf { fd with blocks := fd.blocks.set cb { bb with instrs := bb.instrs ++ [.load u.fresh p] } } }) := by
          simp only [operand_int, dereference_ptr, hload, basic_into_int_value]
        refine ⟨.PointerValue p, u, u.fresh, _, llvm_value_ident hl g, hoi,
          ev_build_load hload, Nat.lt_succ_self _, ?_⟩
        simp [Operand.value, hl, upd_self]
      | FunctionValue f => exact absurd ha (by simp [Operand.resolvesB, hl])

/-- Building the addition of two registers under a valid cursor always
succeeds, yielding a fresh register holding the sum of the operands'
current values. -/
theorem add_step (lhs rhs : Reg) (u : GenState) (hok : CursorOK u) :
    ∃ u', build_int_add lhs rhs u = some (u.fresh, u') ∧ Ev u u' ∧
      u.fresh < u'.fresh ∧ u'.regval u.fresh = u.regval lhs + u.regval rhs ∧
      CursorOK u' := by
  obtain ⟨cf, cb, fd, bb, hc, hf, hb⟩ := hok
  have h := build_int_add_eq hc hf hb lhs rhs
  refine ⟨_, h, ev_build_int_add h, Nat.lt_succ_self _, upd_self _ _ _, ?_⟩
  exact ev_cursorOK (ev_build_int_add h) ⟨cf, cb, fd, bb, hc, hf, hb⟩

/-- The fold loop of `expr_gen` on an all-`Add`, all-resolvable tail:
starting from an accumulator register, it succeeds and produces a register
holding the left-to-right fold of integer addition of the operand values
over the accumulator's value. -/
theorem expr_loop_fold : ∀ (xs : List Operand) (g : Nat) (u : GenState)
    (lhs : Reg), xs.length + 1 ≤ g → CursorOK u →
    (∀ a ∈ xs, a.resolvesB u = true) → lhs < u.fresh →
    ∃ r u', expr_loop g lhs (exprTail xs) u = some (r, u') ∧ Ev u u' ∧
      r < u'.fresh ∧
      u'.regval r = xs.foldl (fun c a => c + a.value u) (u.regval lhs) := by
  intro xs
  induction xs with
  | nil =>
    intro g u lhs hg hok hres hlhs
    refine ⟨lhs, u, ?_, ev_refl u, hlhs, rfl⟩
    cases g <;> rfl
  | cons x rest ih =>
    intro g u lhs hg hok hres hlhs
    have hg2 : rest.length + 2 ≤ g := by
      simp only [List.length_cons] at hg
      omega
    obtain ⟨g'', rfl⟩ : ∃ k, g = k + 2 := ⟨g - 2, by omega⟩
    obtain ⟨v, u₁, rr, u₂, hlv, hoi, hev, hrr, hrval⟩ :=
      operand_eval x g'' u hok (hres x (List.mem_cons_self x rest))
    have hok₂ : CursorOK u₂ := ev_cursorOK hev hok
    obtain ⟨u₃, hadd, hev₂, hfr₂, hval₃, hok₃⟩ := add_step lhs rr u₂ hok₂
    have hevu₃ : Ev u u₃ := ev_trans hev hev₂
    have hres₃ : ∀ a ∈ rest, a.resolvesB u₃ = true := fun a haM =>
      resolvesB_ev hevu₃ (hres a (List.mem_cons_of_mem x haM))
    obtain ⟨r, u', hrec, hev', hfr', hfold⟩ :=
      ih (g'' + 1) u₃ u₂.fresh (by omega) hok₃ hres₃ hfr₂
    refine ⟨r, u', ?_, ev_trans hevu₃ hev', hfr', ?_⟩
    · show expr_loop (g'' + 1 + 1) lhs (exprTail (x :: rest)) u = some (r, u')
      simp only [exprTail, expr_loop, hlv, hoi, tOp, tTerm, Node.data,
        SyntaxType.token, hadd]
      exact hrec
    · rw [hfold]
      have hvals : ∀ a ∈ rest, a.value u₃ = a.value u := fun a haM =>
        value_ev hevu₃ (hres a (List.mem_cons_of_mem x haM))
      rw [foldl_value_congr rest u u₃ hvals, hval₃, hev.regval lhs hlhs, hrval]
      simp [List.foldl_cons]

/-! ## Scope-stack shape lemmas

The statement handlers either leave the scope stack untouched (pure code
emission) or modify only the innermost scope, so everything below the
innermost scope survives the lowering of any statement. -/

/-- `emit` leaves the scope stack untouched. -/
theorem emit_symbols {i : Instr} {u u' : GenState} (h : emit i u = some u') :
    u'.symbols = u.symbols := (ev_emit h).symbols

/-- `build_return` leaves the scope stack untouched. -/
theorem build_return_symbols {v : Option BasicVal} {u u' : GenState}
    (h : build_return v u = some u') : u'.symbols = u.symbols := emit_symbols h

/-- `build_store` leaves the scope stack untouched. -/
theorem build_store_symbols {v : BasicVal} {p : Reg} {u u' : GenState}
    (h : build_store v p u = some u') : u'.symbols = u.symbols :=
  (ev_emit h).symbols

/-- `build_conditional_branch` leaves the scope stack untouched. -/
theorem build_conditional_branch_symbols {cond : Reg} {tb fb : Nat × Nat}
    {u u' : GenState} (h : build_conditional_branch cond tb fb u = some u') :
    u'.symbols = u.symbols := emit_symbols h

/-- `build_alloca` leaves the scope stack untouched. -/
theorem build_alloca_symbols {u : GenState} {p : Reg} {u' : GenState}
    (h : build_alloca u = some (p, u')) : u'.symbols = u.symbols := by
  unfold build_alloca at h
  rcases Option.map_eq_some'.mp h with ⟨s₁, he, hpair⟩
  obtain ⟨-, rfl⟩ := Prod.mk.inj hpair
  exact (ev_emit he).symbols

/-- `append_basic_block` leaves the scope stack untouched. -/
theorem append_basic_block_symbols {f : Nat} {nm : String} {u : GenState}
    {bb : Nat × Nat} {u' : GenState}
    (h : append_basic_block f nm u = some (bb, u')) : u'.symbols = u.symbols := by
  unfold append_basic_block at h
  split at h
  · exact absurd h (by simp)
  · rename_i fd hf
    obtain ⟨-, rfl⟩ := Prod.mk.injEq .. ▸ Prod.mk.inj (Option.some.inj h)
    rfl

/-- `return_stmt_gen` leaves the scope stack untouched. -/
theorem return_stmt_gen_symbols {fuel : Nat} {n : Node} {u u' : GenState}
    (h : return_stmt_gen fuel n u = some u') : u'.symbols = u.symbols := by
  unfold return_stmt_gen at h
  split at h
  · exact build_return_symbols h
  · split at h
    · rename_i v
      simp only [const_int] at h
      exact (ev_emit h).symbols
    · split at h
      · simp at h
      · split at h
        · simp at h
        · exact build_return_symbols h
    · split at h
      · simp at h
      · rename_i v s₁ hexpr
        split at h
        · simp at h
        · exact (build_return_symbols h).trans (ev_expr_gen hexpr).symbols
    · simp at h
  · simp at h

/-- The left-operand coercion of the conditional leaves the scope stack
untouched (the dereference only emits a load). -/
theorem if_lhs_value_symbols {lv : AnyValueEnum} {u : GenState} {b : BasicVal}
    {u' : GenState} (h : if_lhs_value lv u = some (b, u')) :
    u'.symbols = u.symbols := by
  cases lv with
  | IntValue r =>
    simp only [if_lhs_value, any_value_into_basic_value] at h
    obtain ⟨-, rfl⟩ := Prod.mk.injEq .. ▸ Prod.mk.inj (Option.some.inj h)
    rfl
  | PointerValue p => exact (ev_build_load h).symbols
  | FunctionValue f => simp [if_lhs_value, any_value_into_basic_value] at h

/-- The optional-body stage of the conditional leaves the scope stack
untouched. -/
theorem if_body_stage_symbols {fuel : Nat} {childs : List Node} {tb : Nat × Nat}
    {u u' : GenState} (h : if_body_stage fuel childs tb u = some u') :
    u'.symbols = u.symbols := by
  unfold if_body_stage at h
  split at h
  · split at h
    · simp at h
    · have h2 : u'.symbols = (position_at_end tb u).symbols :=
        return_stmt_gen_symbols h
      exact h2
  · obtain rfl := Option.some.inj h
    rfl

/-- `if_stmt_gen` leaves the scope stack untouched. -/
theorem if_stmt_gen_symbols {fuel : Nat} {n : Node} {u u' : GenState}
    (h : if_stmt_gen fuel n u = some u') : u'.symbols = u.symbols := by
  unfold if_stmt_gen at h
  split at h
  · simp at h
  split at h
  · simp at h
  rename_i lv s₁ hlv
  split at h
  · simp at h
  rename_i lb s₂ hlb
  split at h
  · simp at h
  split at h
  · simp at h
  split at h
  · simp at h
  rename_i rv s₃ hrv
  split at h
  · simp at h
  split at h
  · simp at h
  split at h
  · simp at h
  split at h
  · simp at h
  split at h
  · simp at h
  rename_i cond s₄ hcmp
  split at h
  · simp at h
  split at h
  · simp at h
  rename_i tb s₅ htb
  split at h
  · simp at h
  rename_i fb s₆ hfb
  split at h
  · simp at h
  rename_i s₇ hbr
  split at h
  · simp at h
  rename_i s₈ hbody
  obtain rfl := Option.some.inj h
  show s₈.symbols = u.symbols
  rw [if_body_stage_symbols hbody, build_conditional_branch_symbols hbr,
    append_basic_block_symbols hfb, append_basic_block_symbols htb,
    (ev_build_int_compare hcmp).symbols, (ev_llvm_value hrv).symbols,
    if_lhs_value_symbols hlb, (ev_llvm_value hlv).symbols]

/-- `assign_stmt` leaves the scope stack untouched. -/
theorem assign_stmt_symbols {fuel : Nat} {n : Node} {u u' : GenState}
    (h : assign_stmt fuel n u = some u') : u'.symbols = u.symbols := by
  unfold assign_stmt at h
  split at h
  · simp at h
  split at h
  · simp at h
  split at h
  · simp at h
  rename_i pv s₁ hpv
  split at h
  · simp at h
  rename_i vv s₂ hvv
  split at h
  · simp at h
  split at h
  · simp at h
  rw [build_store_symbols h, (ev_llvm_value hvv).symbols, (ev_llvm_value hpv).symbols]

/-- The declaration loop binds only in the innermost scope: everything below
it survives. -/
theorem var_define_loop_below : ∀ (l : List Node) (u u' : GenState) (sc : Scope)
    (below : List Scope), u.symbols = sc :: below →
    var_define_loop l u = some u' → ∃ sc', u'.symbols = sc' :: below := by
  intro l
  induction l with
  | nil =>
    intro u u' sc below hs h
    obtain rfl := Option.some.inj h
    exact ⟨sc, hs⟩
  | cons vnode rest ih =>
    intro u u' sc below hs h
    unfold var_define_loop at h
    split at h
    · simp at h
    rename_i nm hnm
    split at h
    · simp at h
    rename_i p s₁ halloc
    split at h
    · simp at h
    rename_i s₂ hpush
    have hs₁ : s₁.symbols = sc :: below := (build_alloca_symbols halloc).trans hs
    have hs₂ : s₂.symbols = scopeInsert nm (.PointerValue p) sc :: below := by
      unfold push_symbol at hpush
      rw [hs₁] at hpush
      obtain rfl := Option.some.inj hpush
      rfl
    exact ih s₂ u' _ below hs₂ h

/-- The parameter-binding loop binds only register values and only in the
innermost scope: everything below it survives and a handle-free innermost
scope stays handle-free. -/
theorem bind_params_below : ∀ (rs : List Reg) (nms : List String)
    (u u' : GenState) (sc : Scope) (below : List Scope),
    u.symbols = sc :: below → (∀ q ∈ sc, q.2.into_function_value = none) →
    bind_params rs nms u = some u' →
    ∃ sc', u'.symbols = sc' :: below ∧
      ∀ q ∈ sc', q.2.into_function_value = none := by
  intro rs
  induction rs with
  | nil =>
    intro nms u u' sc below hs hnone h
    obtain rfl := Option.some.inj h
    exact ⟨sc, hs, hnone⟩
  | cons r rs ih =>
    intro nms u u' sc below hs hnone h
    cases nms with
    | nil => simp [bind_params] at h
    | cons nm nms =>
      unfold bind_params at h
      split at h
      · simp at h
      rename_i s₁ hpush
      have hs₁ : s₁.symbols = scopeInsert nm (.IntValue r) sc :: below := by
        unfold push_symbol at hpush
        rw [hs] at hpush
        obtain rfl := Option.some.inj hpush
        rfl
      have hnone₁ : ∀ q ∈ scopeInsert nm (.IntValue r) sc,
          q.2.into_function_value = none := by
        intro q hq
        rcases List.mem_cons.mp hq with hq | hq
        · subst hq; rfl
        · exact hnone q (List.mem_filter.mp hq).1
      exact ih nms s₁ u' _ below hs₁ hnone₁ h

/-- A scope that binds no function handle yields none to the scan. -/
theorem scanFn_none_of (sc : Scope)
    (h : ∀ q ∈ sc, q.2.into_function_value = none) : scanFn sc = none := by
  induction sc with
  | nil => rfl
  | cons q rest ih =>
    simp only [scanFn, h q (List.mem_cons_self q rest)]
    exact ih fun p hp => h p (List.mem_cons_of_mem q hp)

/-- Binding a function handle puts it at the head of the scope, so the scan
finds it immediately. -/
theorem scanFn_insert_fn (nm : String) (f : Nat) (sc : Scope) :
    scanFn (scopeInsert nm (.FunctionValue f) sc) = some f := rfl

/-- A freshly bound name resolves to its value from any deeper scope. -/
theorem lookup_insert_self (nm : String) (v : AnyValueEnum) (sc : Scope)
    (below : List Scope) :
    lookup (scopeInsert nm v sc :: below) nm = some v := by
  simp [lookup, scopeInsert]

/-- `current_function` on a stack whose innermost scope just received a
function handle returns that handle. -/
theorem current_function_insert (nm : String) (f : Nat) (sc : Scope)
    (below : List Scope) :
    current_function (scopeInsert nm (.FunctionValue f) sc :: below) = some f := by
  simp only [current_function, scanFn_insert_fn]

/-- Every statement dispatch preserves the scope stack below the innermost
scope, for each of the three mutually recursive drivers. -/
theorem dispatch_below_group (fuel : Nat) :
    (∀ (n : Node) (u u' : GenState) (sc : Scope) (below : List Scope),
      u.symbols = sc :: below → dispatch_node fuel n u = some u' →
      ∃ sc', u'.symbols = sc' :: below) ∧
    (∀ (n : Node) (u u' : GenState) (sc : Scope) (below : List Scope),
      u.symbols = sc :: below → function_gen fuel n u = some u' →
      ∃ sc', u'.symbols = sc' :: below) ∧
    (∀ (l : List Node) (u u' : GenState) (sc : Scope) (below : List Scope),
      u.symbols = sc :: below → dispatch_list fuel l u = some u' →
      ∃ sc', u'.symbols = sc' :: below) := by
  induction fuel with
  | zero =>
    refine ⟨fun n u u' sc below hs h => absurd h (by simp [dispatch_node]),
      fun n u u' sc below hs h => absurd h (by simp [function_gen]),
      fun l u u' sc below hs h => ?_⟩
    cases l with
    | nil =>
      obtain rfl := Option.some.inj h
      exact ⟨sc, hs⟩
    | cons x rest => simp [dispatch_list] at h
  | succ g ih =>
    obtain ⟨ihn, ihf, ihl⟩ := ih
    have hfun : ∀ (n : Node) (u u' : GenState) (sc : Scope) (below : List Scope),
        u.symbols = sc :: below → function_gen (g + 1) n u = some u' →
        ∃ sc', u'.symbols = sc' :: below := by
      intro n u u' sc below hs h
      simp only [function_gen] at h
      split at h
      · simp at h
      rename_i nameNode hname
      split at h
      · simp at h
      rename_i fn_name hfn
      split at h
      · simp at h
      rename_i args_name hargs
      simp only [add_function, push_symbol, hs] at h
      split at h
      · simp at h
      rename_i bb s₃ happ
      split at h
      · simp at h
      rename_i fd hfd
      split at h
      · split at h
        · simp at h
        rename_i s₄ hbind
        split at h
        · simp at h
        rename_i s₅ hlist
        have hs₃ : s₃.symbols =
            [] :: scopeInsert fn_name (.FunctionValue u.functions.length) sc :: below :=
          append_basic_block_symbols happ
        obtain ⟨ps, hs₄, -⟩ := bind_params_below fd.paramRegs args_name
          (position_at_end bb s₃) s₄ []
          (scopeInsert fn_name (.FunctionValue u.functions.length) sc :: below)
          hs₃ (fun q hq => absurd hq (List.not_mem_nil q)) hbind
        obtain ⟨sc₅, hs₅⟩ := ihl _ s₄ s₅ ps _ hs₄ hlist
        unfold pop_scope at h
        rw [hs₅] at h
        obtain rfl := Option.some.inj h
        exact ⟨scopeInsert fn_name (.FunctionValue u.functions.length) sc, rfl⟩
      · simp at h
    have hnode : ∀ (n : Node) (u u' : GenState) (sc : Scope) (below : List Scope),
        u.symbols = sc :: below → dispatch_node (g + 1) n u = some u' →
        ∃ sc', u'.symbols = sc' :: below := by
      intro n u u' sc below hs h
      simp only [dispatch_node] at h
      split at h
      · exact ihf n u u' sc below hs h
      · exact ⟨sc, (return_stmt_gen_symbols h).trans hs⟩
      · exact ⟨sc, (if_stmt_gen_symbols h).trans hs⟩
      · unfold variable_define at h
        split at h
        · simp at h
        rename_i tyNode vars hchild
        split at h
        · simp at h
        exact var_define_loop_below vars u u' sc below hs h
      · exact ⟨sc, (assign_stmt_symbols h).trans hs⟩
      · simp at h
    refine ⟨hnode, hfun, ?_⟩
    intro l u u' sc below hs h
    cases l with
    | nil =>
      obtain rfl := Option.some.inj h
      exact ⟨sc, hs⟩
    | cons x rest =>
      unfold dispatch_list at h
      split at h
      · simp at h
      rename_i s₁ hx
      obtain ⟨sc₁, hs₁⟩ := ihn x u s₁ sc below hs hx
      exact ihl rest s₁ u' sc₁ below hs₁ h

/-! ## Claim theorems -/

/-- C1: the spec demands that every listed error condition — unsupported
construct, unresolved identifier, non-address assignment target, parameter
count mismatch, failed module verification — surface as a recoverable error
value and never abort the process.  The code has no error channel at all:
`dispatch_node` hits `unimplemented!()` on an unsupported node kind (for
instance a `for` loop), which is an uncatchable panic; in the embedding the
run produces no value whatsoever (for every fuel, so this is the panic arm,
not fuel exhaustion), hence no recoverable `UnsupportedConstruct` value is
ever observable by a caller. -/
theorem C1_unsupported_construct_panics_instead_of_error :
    ∀ (fuel : Nat) (cs : List Node) (s : GenState),
      dispatch_node fuel (Node.mk .ForStmt cs) s = none ∧
      dispatch_node fuel (Node.mk .BreakStmt cs) s = none := by
  intro fuel cs s
  cases fuel with
  | zero => exact ⟨rfl, rfl⟩
  | succ g => exact ⟨by simp [dispatch_node, Node.data], by simp [dispatch_node, Node.data]⟩

/-- C10: whenever `ir_gen` returns normally, the returned value is `Ok(())`;
the `Err` variant of its `Result` type is never constructed, so a caller can
never observe a lowering failure through the return value. -/
theorem C10_ir_gen_ok_only (fuel : Nat) (root : Node) (r : Except Unit Unit × GenState)
    (h : ir_gen fuel root = some r) : r.1 = Except.ok () := by
  unfold ir_gen at h
  split at h
  · exact absurd h (by simp)
  · split at h
    · obtain rfl := Option.some.inj h
      rfl
    · simp at h

/-- Witness for C10: the empty compilation unit lowers normally, and the
theorem instantiates on it. -/
theorem C10_ir_gen_ok_only_witness :
    ∃ r, ir_gen 1 (Node.mk .FuncDefine []) = some r ∧ r.1 = Except.ok () :=
  ⟨(Except.ok (), initGen), rfl, C10_ir_gen_ok_only 1 (Node.mk .FuncDefine []) _ rfl⟩

/-- C9: lowering the same syntax tree twice with a fresh generator instance
each time yields the same result — in particular equal modules, which are a
fortiori verification-equivalent.  In the embedding a fresh
`LLVMIRGenerater::new` instance is exactly `initGen`, so one run is the pure
function `ir_gen` of the tree and determinism is definitional. -/
theorem C9_lowering_deterministic (fuel : Nat) (t : Node)
    (r₁ r₂ : Option (Except Unit Unit × GenState))
    (h₁ : ir_gen fuel t = r₁) (h₂ : ir_gen fuel t = r₂) :
    r₁ = r₂ ∧ ∀ a b, r₁ = some a → r₂ = some b → a.2.functions = b.2.functions := by
  subst h₁; subst h₂
  refine ⟨rfl, ?_⟩
  intro a b ha hb
  rw [ha] at hb
  cases hb
  rfl

/-- Witness for C9: two runs on a one-function program. -/
theorem C9_lowering_deterministic_witness :
    ir_gen 1 (Node.mk .FuncDefine []) = ir_gen 1 (Node.mk .FuncDefine []) ∧
    (ir_gen 1 (Node.mk .FuncDefine [])).isSome = true :=
  ⟨(C9_lowering_deterministic 1 (Node.mk .FuncDefine []) _ _ rfl rfl).1, rfl⟩

/-- C8: `current_function` scans all open scopes innermost to outermost and
takes the first binding whose value is a function handle; under the
invariant that exactly one function handle is reachable in the scope stack,
it returns that handle. -/
theorem C8_current_function_unique_handle (syms : List Scope) (f : Nat)
    (h : fnHandles syms = [f]) : current_function syms = some f := by
  rw [current_function_eq_head, h]
  rfl

/-- Witness for C8: a two-scope stack — parameters innermost, one function
handle in the global scope — resolves to that handle. -/
theorem C8_current_function_unique_handle_witness :
    fnHandles [[("a", .IntValue 0), ("b", .PointerValue 1)], [("f", .FunctionValue 0)]] = [0] ∧
    current_function [[("a", .IntValue 0), ("b", .PointerValue 1)], [("f", .FunctionValue 0)]] =
      some 0 :=
  ⟨rfl, C8_current_function_unique_handle _ 0 rfl⟩

/-- C3: a return node whose single child is a terminal identifier looks the
name up in the scope stack and emits exactly one instruction — a return of
the bound value taken directly as a register value (`as_int_value` of the
binding, which for an address-bound identifier is the address id itself) —
and in particular emits no load: the block gains only the `ret`, and the
rest of the state (fresh counter, register file, memory, scopes, cursor) is
untouched. -/
theorem C3_return_ident_no_dereference (fuel : Nat) (s : GenState) (name : String)
    (v : AnyValueEnum) (r : Reg) (cf cb : Nat) (fd : FunctionDef) (bb : BasicBlock)
    (hl : lookup s.symbols name = some v)
    (hv : v.as_int_value = some r)
    (hc : s.cursor = some (cf, cb))
    (hf : s.functions[cf]? = some fd)
    (hb : fd.blocks[cb]? = some bb) :
    return_stmt_gen fuel (Node.mk .ReturnStmt [tId name]) s =
      some { s with
          functions := s.functions.set cf
            { fd with blocks := fd.blocks.set cb { bb with instrs := bb.instrs ++ [.ret (some (.int r))] } } } := by
  simp [return_stmt_gen, Node.children, tId, tTerm, Node.data, hl, hv, build_return, emit,
    hc, hf, hb]

/-- Witness for C3: returning the address-bound identifier `x` (bound to the
stack address 7) emits `ret` of value id 7 directly — no load. -/
theorem C3_return_ident_no_dereference_witness :
    lookup (oneBlockState [[("x", .PointerValue 7)]] 8).symbols "x" = some (.PointerValue 7) ∧
    return_stmt_gen 1 (Node.mk .ReturnStmt [tId "x"]) (oneBlockState [[("x", .PointerValue 7)]] 8) =
      some { oneBlockState [[("x", .PointerValue 7)]] 8 with
        functions := (oneBlockState [[("x", .PointerValue 7)]] 8).functions.set 0
          { name := "f", nparams := 0, paramRegs := [],
            blocks := List.set [{ name := "entry", instrs := [] }] 0
              ({ name := "entry", instrs := [] ++ [.ret (some (.int 7))] }) } } :=
  ⟨rfl, C3_return_ident_no_dereference 1 (oneBlockState [[("x", .PointerValue 7)]] 8) "x"
    (.PointerValue 7) 7 0 0
    { name := "f", nparams := 0, paramRegs := [], blocks := [{ name := "entry", instrs := [] }] }
    { name := "entry", instrs := [] } rfl rfl rfl rfl rfl⟩

/-- Counterexample for C5: for the assignment `a = b` where both names are
address-bound (`a` to address 0, `b` to address 1), the claim demands the
source be dereferenced — a load of address 1 followed by a store of the
loaded value.  The code emits exactly one instruction, a store of the
*pointer value* itself (`store (ptr 1) 0`), with no load anywhere. -/
theorem C5_counterexample_source_not_dereferenced :
    (assign_stmt 1 (Node.mk .AssignStmt [tId "a", tId "b"])
        (oneBlockState [[("a", .PointerValue 0), ("b", .PointerValue 1)]] 2)).map
      (fun t => instrsAt t 0 0) = some [.store (.ptr 1) 0] := by
  simp [assign_stmt, Node.children, tId, tTerm, Node.data, llvm_value, lookup,
    AnyValueEnum.into_pointer_value, any_value_into_basic_value, build_store, storeMem, emit,
    oneBlockState, instrsAt]

/-- C5 as amended: the assignment target must resolve to a stack address —
when it does not, lowering panics (`into_pointer_value` on a non-pointer;
there is no recoverable `NotAssignable` value); the source is evaluated to a
value but is **not** dereferenced when it is itself an address (the address
value is stored as-is); exactly one store of that un-dereferenced source
value into the target address is emitted, and no result value is produced
(only the block, and the memory for an integer store, change). -/
theorem C5_assign_store_no_source_deref (fuel : Nat) (s : GenState) (tname sname : String)
    (tv sv : AnyValueEnum) (cf cb : Nat) (fd : FunctionDef) (bb : BasicBlock)
    (ht : lookup s.symbols tname = some tv)
    (hs : lookup s.symbols sname = some sv)
    (hc : s.cursor = some (cf, cb))
    (hf : s.functions[cf]? = some fd)
    (hb : fd.blocks[cb]? = some bb) :
    (∀ p b, tv.into_pointer_value = some p → any_value_into_basic_value sv = some b →
      assign_stmt (fuel + 1) (Node.mk .AssignStmt [tId tname, tId sname]) s =
        some { s with
            mem := storeMem b p s,
            functions := s.functions.set cf
              { fd with blocks := fd.blocks.set cb { bb with instrs := bb.instrs ++ [.store b p] } } }) ∧
    (tv.into_pointer_value = none →
      assign_stmt (fuel + 1) (Node.mk .AssignStmt [tId tname, tId sname]) s = none) := by
  constructor
  · intro p b hp hbv
    simp [assign_stmt, Node.children, tId, tTerm, Node.data, llvm_value, ht, hs, hp, hbv,
      build_store, emit, hc, hf, hb]
  · intro hp
    simp [assign_stmt, Node.children, tId, tTerm, Node.data, llvm_value, ht, hs, hp]

/-- Witness for C5 (amended): storing the register-bound `b` (register 1)
through the address-bound `a` (address 0). -/
theorem C5_assign_store_no_source_deref_witness :
    assign_stmt 1 (Node.mk .AssignStmt [tId "a", tId "b"])
        (oneBlockState [[("a", .PointerValue 0), ("b", .IntValue 1)]] 2) =
      some { oneBlockState [[("a", .PointerValue 0), ("b", .IntValue 1)]] 2 with
        mem := storeMem (.int 1) 0 (oneBlockState [[("a", .PointerValue 0), ("b", .IntValue 1)]] 2),
        functions := (oneBlockState [[("a", .PointerValue 0), ("b", .IntValue 1)]] 2).functions.set 0
          { name := "f", nparams := 0, paramRegs := [],
            blocks := List.set [{ name := "entry", instrs := [] }] 0
              ({ name := "entry", instrs := [] ++ [.store (.int 1) 0] }) } } :=
  ((C5_assign_store_no_source_deref 0 (oneBlockState [[("a", .PointerValue 0), ("b", .IntValue 1)]] 2)
      "a" "b" (.PointerValue 0) (.IntValue 1) 0 0
      { name := "f", nparams := 0, paramRegs := [], blocks := [{ name := "entry", instrs := [] }] }
      { name := "entry", instrs := [] } rfl rfl rfl rfl rfl).1) 0 (.int 1) rfl rfl

/-- Counterexample for C4: in the if-statement `a > b` where `a` is
register-bound and `b` is address-bound (address 1), the claim demands that
`b` be loaded to a value before the comparison is built.  Lowering instead
panics (`into_int_value` on the right operand's pointer value, source line
310): no load of address 1 is ever emitted and no comparison is built. -/
theorem C4_counterexample_right_operand_not_dereferenced :
    if_stmt_gen 1 (Node.mk .IfStmt [tId "a", tOp .Greater, tId "b"])
      (oneBlockState [[("a", .IntValue 0), ("b", .PointerValue 1)]] 2) = none := by
  simp [if_stmt_gen, Node.children, Node.data, tId, tTerm, tOp, llvm_value, lookup,
    if_lhs_value, any_value_into_basic_value, basic_into_int_value,
    AnyValueEnum.into_int_value, oneBlockState]

/-- C4 as amended: only the *left* operand is dereferenced when address-bound
— a load of its address is emitted and the comparison consumes the loaded
value, before the conditional branch — while the right operand is converted
to an integer value without any dereferencing, so lowering panics (yielding
no result at all, in particular emitting no load) whenever the right operand
resolves to an address. -/
theorem C4_if_left_deref_right_never :
    (∀ (fuel : Nat) (s : GenState) (x y : String) (o : Operators) (pred : IntPredicate)
      (p ra cf cb : Nat) (fd : FunctionDef) (bb : BasicBlock),
      relational_pred (.Operator o) = some pred →
      lookup s.symbols x = some (.PointerValue p) →
      lookup s.symbols y = some (.IntValue ra) →
      ra < s.fresh →
      s.cursor = some (cf, cb) →
      s.functions[cf]? = some fd →
      fd.blocks[cb]? = some bb →
      current_function s.symbols = some cf →
      if_stmt_gen (fuel + 1) (Node.mk .IfStmt [tId x, tOp o, tId y]) s =
        some { s with
            functions := s.functions.set cf { fd with blocks := fd.blocks.set cb { bb with instrs := bb.instrs ++ [.load s.fresh p, .icmp pred (s.fresh + 1) s.fresh ra, .condBr (s.fresh + 1) fd.blocks.length (fd.blocks.length + 1)] } ++ [{ name := "if", instrs := [] }, { name := "endif", instrs := [] }] },
            cursor := some (cf, fd.blocks.length + 1),
            fresh := s.fresh + 1 + 1,
            regval := upd (upd s.regval s.fresh (s.mem p)) (s.fresh + 1)
              (if predHolds pred (s.mem p) (s.regval ra) then 1 else 0) }) ∧
    (∀ (fuel : Nat) (s : GenState) (c0 c1 : Node) (y : String) (q : Nat) (body : List Node),
      lookup s.symbols y = some (.PointerValue q) →
      if_stmt_gen fuel (Node.mk .IfStmt (c0 :: c1 :: tId y :: body)) s = none) := by
  constructor
  · intro fuel s x y o pred p ra cf cb fd bb hrel hx hy hra hc hf hb hcur
    have hcf : cf < s.functions.length := (List.getElem?_eq_some.mp hf).1
    have hcb : cb < fd.blocks.length := (List.getElem?_eq_some.mp hb).1
    have hne : ra ≠ s.fresh := Nat.ne_of_lt hra
    have hcb1 : cb < fd.blocks.length + (0 + 1) := by omega
    have hcb2 : cb < fd.blocks.length + 1 := by omega
    simp only [if_stmt_gen, Node.children, List.getElem?_cons_zero, List.getElem?_cons_succ,
      llvm_value, tId, tTerm, tOp, Node.data, SyntaxType.token, hx, hy,
      if_lhs_value, dereference_ptr, build_load, basic_into_int_value,
      AnyValueEnum.into_int_value, hrel, build_int_compare, append_basic_block,
      build_conditional_branch, emit, if_body_stage, position_at_end, Option.map_some,
      Option.map_some', hc, hf, hb, hcur, hcf, hcb, upd_self, upd_ne, hne,
      List.getElem?_set_self, List.set_set, List.length_set, List.getElem?_append,
      List.set_append, List.length_append, List.length_cons, List.length_nil,
      hcb1, hcb2, if_true, if_false, Nat.zero_add, Nat.add_zero,
      upd_ne s.regval s.fresh (s.mem p) ra hne, List.append_assoc, List.singleton_append,
      List.cons_append, List.nil_append, Nat.reduceAdd, Nat.reduceLT]
  · intro fuel s c0 c1 y q body hq
    cases hv0 : llvm_value fuel c0 s with
    | none =>
      simp [if_stmt_gen, Node.children, List.getElem?_cons_zero, hv0]
    | some out =>
      obtain ⟨lv, s₁⟩ := out
      have hsym₁ : s₁.symbols = s.symbols := (ev_llvm_value hv0).symbols
      cases lv with
      | PointerValue pp =>
        cases hld : dereference_ptr pp s₁ with
        | none =>
          simp [if_stmt_gen, Node.children, List.getElem?_cons_zero, hv0, if_lhs_value, hld]
        | some out₂ =>
          obtain ⟨b, s₂⟩ := out₂
          have hsym₂ : s₂.symbols = s₁.symbols := (ev_build_load hld).symbols
          cases b with
          | ptr _ =>
            simp [if_stmt_gen, Node.children, List.getElem?_cons_zero, hv0, if_lhs_value,
              hld, basic_into_int_value]
          | int lr =>
            cases fuel with
            | zero => exact absurd hv0 (by simp [llvm_value])
            | succ g =>
              simp only [if_stmt_gen, Node.children, List.getElem?_cons_zero,
                List.getElem?_cons_succ, hv0, if_lhs_value, hld, basic_into_int_value]
              simp [llvm_value, tId, tTerm, Node.data, hsym₂, hsym₁, hq,
                AnyValueEnum.into_int_value]
      | IntValue lr =>
        cases fuel with
        | zero => exact absurd hv0 (by simp [llvm_value])
        | succ g =>
          simp only [if_stmt_gen, Node.children, List.getElem?_cons_zero,
            List.getElem?_cons_succ, hv0, if_lhs_value, any_value_into_basic_value,
            basic_into_int_value]
          simp [llvm_value, tId, tTerm, Node.data, hsym₁, hq,
            AnyValueEnum.into_int_value]
      | FunctionValue ff =>
        simp [if_stmt_gen, Node.children, List.getElem?_cons_zero, hv0, if_lhs_value,
          any_value_into_basic_value]

/-- Witness for C4 (amended): `a > b` with `a` address-bound (address 1) and
`b` register-bound (register 0) emits the load of address 1 before the
comparison and branch; the mirrored binding panics. -/
theorem C4_if_left_deref_right_never_witness :
    if_stmt_gen 1 (Node.mk .IfStmt [tId "a", tOp .Greater, tId "b"])
        (oneBlockState [[("a", .PointerValue 1), ("b", .IntValue 0), ("f", .FunctionValue 0)]] 2) =
      some { oneBlockState [[("a", .PointerValue 1), ("b", .IntValue 0), ("f", .FunctionValue 0)]] 2 with
          functions := (oneBlockState [[("a", .PointerValue 1), ("b", .IntValue 0), ("f", .FunctionValue 0)]] 2).functions.set 0
            { name := "f", nparams := 0, paramRegs := [],
              blocks := List.set [{ name := "entry", instrs := [] }] 0 { name := "entry", instrs := [] ++ [.load 2 1, .icmp .SGT 3 2 0, .condBr 3 1 2] } ++ [{ name := "if", instrs := [] }, { name := "endif", instrs := [] }] },
          cursor := some (0, 2),
          fresh := 4,
          regval := upd (upd (oneBlockState [[("a", .PointerValue 1), ("b", .IntValue 0), ("f", .FunctionValue 0)]] 2).regval 2 0) 3
            (if predHolds .SGT 0 0 then 1 else 0) } ∧
    if_stmt_gen 1 (Node.mk .IfStmt [tId "a", tOp .Greater, tId "b"])
        (oneBlockState [[("a", .IntValue 0), ("b", .PointerValue 1)]] 2) = none :=
  ⟨C4_if_left_deref_right_never.1 0
      (oneBlockState [[("a", .PointerValue 1), ("b", .IntValue 0), ("f", .FunctionValue 0)]] 2) "a" "b" .Greater .SGT
      1 0 0 0
      { name := "f", nparams := 0, paramRegs := [], blocks := [{ name := "entry", instrs := [] }] }
      { name := "entry", instrs := [] } rfl rfl rfl (by decide) rfl rfl rfl rfl,
   C4_if_left_deref_right_never.2 1
     (oneBlockState [[("a", .IntValue 0), ("b", .PointerValue 1)]] 2) (tId "a")
     (tOp .Greater) "b" 1 [] rfl⟩

/-- C6: lowering an if-statement appends exactly two new basic blocks to the
current function — the "if" (then) block at index `fd.blocks.length` and the
"endif" (merge) block right after it — and emits exactly one conditional
branch whose true edge targets the then block and whose false edge targets
the merge block (see `ifMidState`); the optional fourth child is lowered as
a single statement by `if_body_stage`, which positions the cursor at the
then block first; and the cursor is left at the merge block afterward
unconditionally — the final `Option.map position_at_end` applies whether or
not the then branch ended in a return. -/
theorem C6_if_two_blocks_branch_merge (fuel : Nat) (s : GenState) (x y : String)
    (o : Operators) (pred : IntPredicate) (la ra cf cb : Nat) (fd : FunctionDef)
    (bb : BasicBlock) (body : List Node)
    (hrel : relational_pred (.Operator o) = some pred)
    (hx : lookup s.symbols x = some (.IntValue la))
    (hy : lookup s.symbols y = some (.IntValue ra))
    (hc : s.cursor = some (cf, cb))
    (hf : s.functions[cf]? = some fd)
    (hb : fd.blocks[cb]? = some bb)
    (hcur : current_function s.symbols = some cf) :
    if_stmt_gen (fuel + 1) (Node.mk .IfStmt (tId x :: tOp o :: tId y :: body)) s =
      Option.map (position_at_end (cf, fd.blocks.length + 1))
        (if_body_stage (fuel + 1) (tId x :: tOp o :: tId y :: body) (cf, fd.blocks.length)
          (ifMidState s cf cb fd bb pred la ra)) := by
  have hcf : cf < s.functions.length := (List.getElem?_eq_some.mp hf).1
  have hcb : cb < fd.blocks.length := (List.getElem?_eq_some.mp hb).1
  have hcb1 : cb < fd.blocks.length + (0 + 1) := by omega
  have hcb2 : cb < fd.blocks.length + 1 := by omega
  simp only [if_stmt_gen, Node.children, List.getElem?_cons_zero, List.getElem?_cons_succ,
    llvm_value, tId, tTerm, tOp, Node.data, SyntaxType.token, hx, hy,
    if_lhs_value, any_value_into_basic_value, basic_into_int_value,
    AnyValueEnum.into_int_value, hrel, build_int_compare, append_basic_block,
    build_conditional_branch, emit, Option.map_some, Option.map_some',
    hc, hf, hb, hcur, hcf, hcb, ifMidState,
    List.getElem?_set_self, List.set_set, List.length_set, List.getElem?_append,
    List.set_append, List.length_append, List.length_cons, List.length_nil,
    hcb1, hcb2, if_true, if_false, Nat.zero_add, Nat.add_zero, List.append_assoc,
    List.singleton_append, List.cons_append, List.nil_append, Nat.reduceAdd, Nat.reduceLT]
  split
  · rename_i heq
    rw [heq]
    rfl
  · rename_i t heq
    rw [heq]
    rfl

/-- Witness for C6: `a > b` on register-bound operands with a return-statement
body. -/
theorem C6_if_two_blocks_branch_merge_witness :
    if_stmt_gen 1
        (Node.mk .IfStmt [tId "a", tOp .Greater, tId "b", Node.mk .ReturnStmt [tNum 7]])
        (oneBlockState [[("a", .IntValue 0), ("b", .IntValue 1), ("f", .FunctionValue 0)]] 2) =
      Option.map (position_at_end (0, 2))
        (if_body_stage 1 [tId "a", tOp .Greater, tId "b", Node.mk .ReturnStmt [tNum 7]] (0, 1)
          (ifMidState (oneBlockState [[("a", .IntValue 0), ("b", .IntValue 1), ("f", .FunctionValue 0)]] 2)
            0 0
            { name := "f", nparams := 0, paramRegs := [], blocks := [{ name := "entry", instrs := [] }] }
            { name := "entry", instrs := [] } .SGT 0 1)) :=
  C6_if_two_blocks_branch_merge 0
    (oneBlockState [[("a", .IntValue 0), ("b", .IntValue 1), ("f", .FunctionValue 0)]] 2)
    "a" "b" .Greater .SGT 0 1 0 0
    { name := "f", nparams := 0, paramRegs := [], blocks := [{ name := "entry", instrs := [] }] }
    { name := "entry", instrs := [] } [Node.mk .ReturnStmt [tNum 7]]
    rfl rfl rfl rfl rfl rfl rfl

/-- C2: for every expression node whose `1 + 2·|xs|` children alternate
operand, operator, operand, … (an odd count, at least three when `xs` is
nonempty), in which every operator token is `Add` and every operand resolves
in scope, `expr_gen` succeeds with a register value whose content is the
left-to-right fold of integer addition over the operand values — where an
address-bound operand contributes the memory content at its address, i.e.
is dereferenced (loaded) first, per `Operand.value` and `operand_eval`. -/
theorem C2_expr_add_fold (fuel : Nat) (s : GenState) (x0 : Operand)
    (xs : List Operand) (hxs : xs ≠ []) (hfuel : xs.length + 2 ≤ fuel)
    (hok : CursorOK s) (h0 : x0.resolvesB s = true)
    (hall : ∀ a ∈ xs, a.resolvesB s = true) :
    ∃ r s', expr_gen fuel (Node.mk .Expr (exprChildren x0 xs)) s =
        some (.IntValue r, s') ∧
      s'.regval r = xs.foldl (fun c a => c + a.value s) (x0.value s) := by
  obtain ⟨F, rfl⟩ : ∃ F, fuel = F + 2 := ⟨fuel - 2, by omega⟩
  obtain ⟨v, u₁, lhs, u₂, hlv, hoi, hev, hlhs, hlval⟩ := operand_eval x0 F s hok h0
  have hok₂ : CursorOK u₂ := ev_cursorOK hev hok
  have hres₂ : ∀ a ∈ xs, a.resolvesB u₂ = true := fun a ha =>
    resolvesB_ev hev (hall a ha)
  obtain ⟨r, s', hloop, hev', hfr', hfold⟩ :=
    expr_loop_fold xs (F + 1) u₂ lhs (by omega) hok₂ hres₂ hlhs
  have hx1 : 1 ≤ xs.length := by
    cases xs with
    | nil => exact absurd rfl hxs
    | cons a l => simp
  have hlen : ¬ ((exprTail xs).length < 2) := by
    rw [exprTail_length]
    omega
  refine ⟨r, s', ?_, ?_⟩
  · simp only [expr_gen, Node.children, exprChildren]
    rw [if_neg hlen]
    simp only [hlv, hoi, hloop]
  · rw [hfold]
    have hvals : ∀ a ∈ xs, a.value u₂ = a.value s := fun a ha =>
      value_ev hev (hall a ha)
    rw [foldl_value_congr xs s u₂ hvals, hlval]

/-- Witness for C2: `2 + 3 + a` with `a` address-bound. -/
theorem C2_expr_add_fold_witness :
    ∃ r s', expr_gen 4 (Node.mk .Expr (exprChildren (.num 2) [.num 3, .var "a"]))
        (oneBlockState [[("a", .PointerValue 5)]] 10) = some (.IntValue r, s') ∧
      s'.regval r = [Operand.num 3, Operand.var "a"].foldl
        (fun c a => c + a.value (oneBlockState [[("a", .PointerValue 5)]] 10))
        ((Operand.num 2).value (oneBlockState [[("a", .PointerValue 5)]] 10)) :=
  C2_expr_add_fold 4 (oneBlockState [[("a", .PointerValue 5)]] 10) (.num 2)
    [.num 3, .var "a"] (List.cons_ne_nil _ _) (by decide)
    ⟨0, 0, _, _, rfl, rfl, rfl⟩ (by decide) (by decide)

/-- C7: a successful lowering of a function-definition node from a state
whose scope stack is `top :: rest` factors through a body stage: the body
children (everything past the name and the parameter prefix) are lowered by
the driver loop from a state `s_body` whose scope stack is
`ps :: scopeInsert fn_name (handle) top :: rest` — the function handle was
bound under the function's name in the *enclosing* scope (derived from
`top` by exactly that insertion) strictly before the function's own scope
was pushed on top of it.  Consequently the handle resolves by name from
below the body's own scope, `current_function` on the stack below the body
scope returns it, `current_function` at the start of the body (whose own
scope `ps` holds only parameter registers, never a handle) returns it, and
at every point during the lowering of the body — after any prefix of the
body statements, under any fuel — the scope stack is still some innermost
scope on top of the unchanged `scopeInsert fn_name (handle) top :: rest`,
so the handle stays reachable from a scope below the body's own. -/
theorem C7_function_handle_registered_before_scope_push
    (fuel : Nat) (n : Node) (s sf : GenState) (top : Scope) (rest : List Scope)
    (hsyms : s.symbols = top :: rest)
    (h : function_gen (fuel + 1) n s = some sf) :
    ∃ (fn_name : String) (nargs : Nat) (ps : Scope) (s_body sfb : GenState),
      dispatch_list fuel (n.children.drop (nargs + 2)) s_body = some sfb ∧
      pop_scope sfb = some sf ∧
      s_body.symbols =
        ps :: scopeInsert fn_name (.FunctionValue s.functions.length) top :: rest ∧
      lookup (scopeInsert fn_name (.FunctionValue s.functions.length) top :: rest)
        fn_name = some (.FunctionValue s.functions.length) ∧
      current_function
          (scopeInsert fn_name (.FunctionValue s.functions.length) top :: rest) =
        some s.functions.length ∧
      current_function s_body.symbols = some s.functions.length ∧
      ∀ (g : Nat) (done todo : List Node) (u : GenState),
        n.children.drop (nargs + 2) = done ++ todo →
        dispatch_list g done s_body = some u →
        ∃ sc, u.symbols =
          sc :: scopeInsert fn_name (.FunctionValue s.functions.length) top :: rest := by
  simp only [function_gen] at h
  split at h
  · simp at h
  rename_i nameNode hname
  split at h
  · simp at h
  rename_i fn_name hfn
  split at h
  · simp at h
  rename_i args_name hargs
  simp only [add_function, push_symbol, hsyms] at h
  split at h
  · simp at h
  rename_i bb s₃ happ
  split at h
  · simp at h
  rename_i fd hfd
  split at h
  · split at h
    · simp at h
    rename_i s₄ hbind
    split at h
    · simp at h
    rename_i s₅ hlist
    have hs₃ : s₃.symbols =
        [] :: scopeInsert fn_name (.FunctionValue s.functions.length) top :: rest :=
      append_basic_block_symbols happ
    obtain ⟨ps, hs₄, hpsnone⟩ := bind_params_below fd.paramRegs args_name
      (position_at_end bb s₃) s₄ []
      (scopeInsert fn_name (.FunctionValue s.functions.length) top :: rest)
      hs₃ (fun q hq => absurd hq (List.not_mem_nil q)) hbind
    refine ⟨fn_name, args_name.length, ps, s₄, s₅, hlist, h, hs₄,
      lookup_insert_self fn_name _ top rest,
      current_function_insert fn_name _ top rest, ?_, ?_⟩
    · rw [hs₄]
      simp only [current_function, scanFn_none_of ps hpsnone, scanFn_insert_fn]
    · intro g done todo u hsplit hrun
      exact (dispatch_below_group g).2.2 done s₄ u ps _ hs₄ hrun
  · simp at h

/-- Witness for C7: `function f() { return 3 }` lowered from the fresh
generator state. -/
theorem C7_function_handle_registered_before_scope_push_witness :
    ∃ (sfin : GenState) (fn_name : String) (nargs : Nat) (ps : Scope)
      (s_body sfb : GenState),
      dispatch_list 2
          ((Node.mk .FuncDefine
            [tTerm (.KeyWord .Int), tId "f", Node.mk .ReturnStmt [tNum 3]]).children.drop
            (nargs + 2)) s_body = some sfb ∧
      pop_scope sfb = some sfin ∧
      s_body.symbols =
        ps :: scopeInsert fn_name (.FunctionValue initGen.functions.length) [] :: [] ∧
      lookup (scopeInsert fn_name (.FunctionValue initGen.functions.length) [] :: [])
        fn_name = some (.FunctionValue initGen.functions.length) ∧
      current_function
          (scopeInsert fn_name (.FunctionValue initGen.functions.length) [] :: []) =
        some initGen.functions.length ∧
      current_function s_body.symbols = some initGen.functions.length ∧
      ∀ (g : Nat) (done todo : List Node) (u : GenState),
        (Node.mk .FuncDefine
          [tTerm (.KeyWord .Int), tId "f", Node.mk .ReturnStmt [tNum 3]]).children.drop
          (nargs + 2) = done ++ todo →
        dispatch_list g done s_body = some u →
        ∃ sc, u.symbols =
          sc :: scopeInsert fn_name (.FunctionValue initGen.functions.length) [] :: [] := by
  obtain ⟨sf, hsf⟩ : ∃ sf, function_gen (2 + 1)
      (Node.mk .FuncDefine [tTerm (.KeyWord .Int), tId "f", Node.mk .ReturnStmt [tNum 3]])
      initGen = some sf := ⟨_, rfl⟩
  exact ⟨sf, C7_function_handle_registered_before_scope_push 2
    (Node.mk .FuncDefine [tTerm (.KeyWord .Int), tId "f", Node.mk .ReturnStmt [tNum 3]])
    initGen sf [] [] rfl hsf⟩

end MyParser
